import Mathlib

/-!
Webpack-Theory: the `Compiler` of `src/core/compiler.js`.

A shallow embedding of the bundler core (`run`, `getEntry`, `buildEntryModule`,
`buildModule`, `handleLoader`, `handleWebpackCompiler`, `buildUpChunk`,
`exportFile`) together with the parts of the host it calls into: POSIX `path`,
a file system, the Babel syntax tree and the hook bus.

Conventions.
* JavaScript strings are `String`; the path functions work on `List Char`.
* JavaScript `Set`s of freshly created objects (`modules`, `entries`, `chunks`)
  are lists in insertion order: every `add` receives a new object.
* A thrown exception is `Outcome.throw`, carrying the compiler state reached.
* The recursion `buildModule ↔ handleWebpackCompiler` is bounded by fuel;
  `Outcome.outOfFuel` stands for a recursion deeper than the fuel given.
-/

namespace WebpackTheory

/-! ## POSIX `path` (Node's `path.posix`) on character lists -/

namespace Path

/-- Split at every `/` (like `s.split("/")`): always at least one segment. -/
def splitSlash : List Char → List (List Char)
  | [] => [[]]
  | c :: cs =>
    match splitSlash cs with
    | [] => [[c]]
    | seg :: rest => if c = '/' then [] :: seg :: rest else (c :: seg) :: rest

/-- Join segments with `/`. -/
def joinSlash : List (List Char) → List Char
  | [] => []
  | [s] => s
  | s :: t :: rest => s ++ '/' :: joinSlash (t :: rest)

/-- Node's `normalizeString`, segment by segment: empty and `.` segments are
dropped; `..` removes the previous segment unless there is none or it is `..`
itself, in which case it is kept only when `allowAboveRoot`. `acc` is the
result so far, last segment first. -/
def normalizeSegs (allowAboveRoot : Bool) : List (List Char) → List (List Char) → List (List Char)
  | acc, [] => acc.reverse
  | acc, seg :: rest =>
    if seg = [] ∨ seg = ['.'] then normalizeSegs allowAboveRoot acc rest
    else if seg = ['.', '.'] then
      match acc with
      | [] => normalizeSegs allowAboveRoot (if allowAboveRoot then [seg] else []) rest
      | top :: acc' =>
        if top = ['.', '.'] then
          normalizeSegs allowAboveRoot (if allowAboveRoot then seg :: acc else acc) rest
        else normalizeSegs allowAboveRoot acc' rest
    else normalizeSegs allowAboveRoot (seg :: acc) rest

/-- The test `path.isAbsolute(p)`: the first character is `/`. -/
def isAbsoluteChars : List Char → Bool
  | c :: _ => c = '/'
  | [] => false

/-- Ends with `/`. -/
def endsWithSlash (p : List Char) : Bool :=
  match p.reverse with
  | c :: _ => c = '/'
  | [] => false

/-- The function `path.normalize(p)`. -/
def normalizeChars (p : List Char) : List Char :=
  if p = [] then ['.']
  else
    let isAbs := isAbsoluteChars p
    let trailing := endsWithSlash p
    let body := joinSlash (normalizeSegs (!isAbs) [] (splitSlash p))
    if body = [] then
      if isAbs then ['/'] else if trailing then ['.', '/'] else ['.']
    else
      let body := if trailing then body ++ ['/'] else body
      if isAbs then '/' :: body else body

/-- The function `path.join(a, b)` for two string arguments: the non-empty
arguments are joined with `/` and the result normalised. -/
def joinChars (a b : List Char) : List Char :=
  let joined :=
    if a = [] then b
    else if b = [] then a
    else a ++ '/' :: b
  if joined = [] then ['.'] else normalizeChars joined

/-- The function `path.dirname(p)`: scanning from the end down to index 1,
trailing slashes are skipped, then the last segment, and the path is cut at the
slash found before it. -/
def dirnameChars : List Char → List Char
  | [] => ['.']
  | c0 :: rest =>
    let afterTrailing := rest.reverse.dropWhile (fun c => c = '/')
    match afterTrailing.dropWhile (fun c => c ≠ '/') with
    | [] => if c0 = '/' then ['/'] else ['.']
    | _ :: before =>
      if c0 = '/' ∧ before = [] then ['/', '/'] else c0 :: before.reverse

/-- The segments of `path.resolve(p)` in a process whose working directory is
`cwd` (an absolute path): an absolute `p` stands alone, a relative one is
appended to `cwd`; the result is normalised without leaving the root. -/
def resolveSegs (cwd p : List Char) : List (List Char) :=
  if isAbsoluteChars p then normalizeSegs false [] (splitSlash p)
  else normalizeSegs false [] (splitSlash cwd ++ splitSlash p)

/-- The function `path.resolve(p)`. -/
def resolveChars (cwd p : List Char) : List Char :=
  '/' :: joinSlash (resolveSegs cwd p)

/-- Drop the longest common prefix of two segment lists. -/
def dropCommon : List (List Char) → List (List Char) → List (List Char) × List (List Char)
  | a :: as, b :: bs => if a = b then dropCommon as bs else (a :: as, b :: bs)
  | as, bs => (as, bs)

/-- The function `path.relative(src, dst)`: both are resolved against `cwd`,
the common leading segments are dropped, every remaining segment of `src`
becomes `..` and the remaining segments of `dst` follow. -/
def relativeChars (cwd src dst : List Char) : List Char :=
  if src = dst then []
  else
    let rest := dropCommon (resolveSegs cwd src) (resolveSegs cwd dst)
    joinSlash (rest.1.map (fun _ => ['.', '.']) ++ rest.2)

end Path

/-- The function `path.isAbsolute`. -/
def pathIsAbsolute (p : String) : Bool := Path.isAbsoluteChars p.data

/-- The function `path.join` on two strings. -/
def pathJoin (a b : String) : String := ⟨Path.joinChars a.data b.data⟩

/-- The function `path.dirname`. -/
def pathDirname (p : String) : String := ⟨Path.dirnameChars p.data⟩

/-- The function `path.relative`, in a process with working directory `cwd`. -/
def pathRelative (cwd src dst : String) : String :=
  ⟨Path.relativeChars cwd.data src.data dst.data⟩

/-- The function `path.resolve` of one argument, with working directory `cwd`:
the absolute file a path given to `fs` denotes. -/
def pathResolve (cwd p : String) : String := ⟨Path.resolveChars cwd.data p.data⟩

/-- Modelled from the spec: `toUnixPath` of the absent `./utils`, which unifies
the path separator to `/` (every backslash becomes a slash). -/
def toUnixPath (p : String) : String :=
  ⟨p.data.map (fun c => if c = '\\' then '/' else c)⟩

/-- The function `String.prototype.replace(pattern, replacement)` with a string
pattern: only the first occurrence is replaced. `before` holds the characters
already passed, last first. Returns `none` when the pattern does not occur. -/
def findFirst (pat : List Char) : List Char → List Char → Option (List Char × List Char)
  | before, [] => if pat = [] then some (before.reverse, []) else none
  | before, c :: cs =>
    if pat.isPrefixOf (c :: cs) then some (before.reverse, (c :: cs).drop pat.length)
    else findFirst pat (c :: before) cs

/-- The substitution patterns of a replacement string (`GetSubstitution`) when
the pattern is a string: `$$` is a dollar sign, `$&` the match, a dollar sign
followed by a backtick the text before the match, followed by an apostrophe the
text after it; anything else is literal. -/
def expandReplacement (matched before after : List Char) : List Char → List Char
  | [] => []
  | [c] => [c]
  | c :: d :: rest =>
    if c = '$' then
      if d = '$' then '$' :: expandReplacement matched before after rest
      else if d = '&' then matched ++ expandReplacement matched before after rest
      else if d = Char.ofNat 96 then before ++ expandReplacement matched before after rest
      else if d = Char.ofNat 39 then after ++ expandReplacement matched before after rest
      else c :: expandReplacement matched before after (d :: rest)
    else c :: expandReplacement matched before after (d :: rest)

/-- The call `s.replace(pat, rep)` for strings `pat` and `rep`. -/
def stringReplace (s pat rep : String) : String :=
  match findFirst pat.data [] s.data with
  | none => s
  | some (before, after) =>
    ⟨before ++ expandReplacement pat.data before after rep.data ++ after⟩

/-! ## The syntax tree -/

/-- What JavaScript reads from the `value` property of a node. -/
inductive JsValue where
  | undefined
  | str (s : String)
  | num (raw : String)
  | bool (b : Bool)
deriving DecidableEq, Repr

mutual
/-- A Babel syntax-tree node, as far as the compiler looks at it. `other` is a
node of any further type (statements, member expressions, template literals,
`null`, ...) with its child nodes in visiting order; it has neither a `name`
nor a `value` property. -/
inductive Node where
  | identifier (name : String)
  | stringLiteral (value : String)
  | numericLiteral (raw : String)
  | booleanLiteral (value : Bool)
  | bigIntLiteral (value : String)
  | callExpression (callee : Node) (arguments : NodeList)
  | other (type : String) (children : NodeList)
deriving Repr
/-- A list of nodes. -/
inductive NodeList where
  | nil
  | cons (head : Node) (tail : NodeList)
deriving Repr
end

/-- The property `node.name`: only identifiers have one. -/
def Node.name? : Node → Option String
  | .identifier n => some n
  | _ => none

/-- The property `node.value`. -/
def Node.value : Node → JsValue
  | .stringLiteral v => .str v
  | .numericLiteral r => .num r
  | .booleanLiteral b => .bool b
  | .bigIntLiteral v => .str v
  | _ => .undefined

/-- The nodes of a `NodeList` as a list. -/
def NodeList.toList : NodeList → List Node
  | .nil => []
  | .cons n ns => n :: ns.toList

/-- Build a `NodeList` from a list. -/
def NodeList.ofList : List Node → NodeList
  | [] => .nil
  | n :: ns => .cons n (NodeList.ofList ns)

/-! ## Data model -/

/-- The module object created by `handleWebpackCompiler`. -/
structure Module where
  id : String
  dependencies : List String
  name : List String
  _source : String
deriving DecidableEq, Repr

/-- The chunk object created by `buildUpChunk`. -/
structure Chunk where
  name : String
  entryModule : Module
  modules : List Module
deriving DecidableEq, Repr

/-- Exceptions. `typeError` is the host's `TypeError`; `resolutionError` is what
the resolver throws; `enoent` is a failed file-system call; `moduleNotFound` a
failed `require` of a loader; `parseError` a failed `parser.parse`.
`unsupportedDependencyError` and `configError` are the two further kinds of the
specification's taxonomy; no function below produces them. -/
inductive Err where
  | typeError
  | resolutionError (specifier fromDir : String)
  | unsupportedDependencyError
  | configError
  | enoent (path : String)
  | parseError
  | moduleNotFound (request : String)
deriving DecidableEq, Repr

/-- Observable steps of a run, in the order they happen. `readFile` is the call
of `fs.readFileSync` that opens `buildModule`, recorded whether or not the file
exists; `hookCall` carries the listeners that ran, the call itself has no
argument. -/
inductive Event where
  | hookCall (hook : String) (listeners : List String)
  | readFile (path : String)
  | assetComputed (filename : String)
  | mkdir (path : String)
  | writeFile (path content : String)
  | callback
deriving DecidableEq, Repr

/-- One element of `options.module.rules`. `test` is `rule.test.test(path)` for
a regular expression without the global or sticky flag, whose answer depends on
the path alone (with one of these flags the expression keeps `lastIndex` between
calls, which is not modelled). -/
structure Rule where
  test : String → Bool
  loader : Option String
  use : Option (List String)

/-- The object `options.output`. -/
structure Output where
  filename : Option String
  path : Option String

/-- The value of `options.entry`: absent, a string, or an object whose keys
(in `Object.keys` order, hence distinct) map to path strings. -/
inductive EntryOption where
  | missing
  | single (path : String)
  | map (entries : List (String × String))

/-- The options object given to the compiler. -/
structure Options where
  context : Option String
  entry : EntryOption
  output : Option Output
  resolveExtensions : List String
  rules : List Rule

/-- The host: working directory, files (absolute normalised path ↦ content),
directories, Babel's `parser.parse` and `generator`, `require` for loaders and
the absent `getSourceCode` of `./utils`. -/
structure Host where
  cwd : String
  files : List (String × String)
  dirs : List String
  parse : String → Option Node
  generate : Node → String
  requireLoader : String → Option (String → String)
  getSourceCode : Chunk → String

/-- The compiler object. `taps` are the listeners registered on the hooks
(hook name, listener name) in registration order; `trace` is the log of
observable steps and is not a field of the JavaScript object. `assets` are the
own properties set on `this.assets`, in creation order. -/
structure Compiler where
  rootPath : String
  taps : List (String × String)
  entries : List Module
  modules : List Module
  chunks : List Chunk
  assets : List (String × String)
  files : List String
  originSourceCode : String
  moduleCode : String
  trace : List Event
deriving DecidableEq, Repr

/-- How a call ends: it returns, it throws, or the recursion did not finish
within the fuel. -/
inductive Outcome (α : Type) where
  | ok (value : α) (c : Compiler)
  | throw (e : Err) (c : Compiler)
  | outOfFuel
deriving DecidableEq, Repr

/-! ## Host functions -/

/-- Look a key up in an association list. -/
def assocGet : List (String × String) → String → Option String
  | [], _ => none
  | (k, v) :: rest, key => if k = key then some v else assocGet rest key

/-- Set a property: an existing key keeps its place, a new one goes last. -/
def assocSet : List (String × String) → String → String → List (String × String)
  | [], key, v => [(key, v)]
  | (k, w) :: rest, key, v =>
    if k = key then (k, v) :: rest else (k, w) :: assocSet rest key v

/-- The assignment `this.assets[key] = value` in strict code, `this.assets`
being a `Set` object used as a dictionary: `size` is an accessor of
`Set.prototype` without a setter, so the assignment throws (`none`);
`__proto__` is the accessor of `Object.prototype`, whose setter ignores a
string; every other key becomes, or updates, an own property. -/
def setAssetProperty (assets : List (String × String)) (key value : String) :
    Option (List (String × String)) :=
  if key = "size" then none
  else if key = "__proto__" then some assets
  else some (assocSet assets key value)

/-- The number written by a string of decimal digits, `acc` being the value of
the digits already read. -/
def digitsValue : List Char → Nat → Option Nat
  | [], acc => some acc
  | c :: cs, acc =>
    if 48 ≤ c.toNat ∧ c.toNat ≤ 57 then digitsValue cs (acc * 10 + (c.toNat - 48)) else none

/-- The array index a property key stands for: a canonical decimal numeral (no
leading zero) below `2^32 - 1`. -/
def arrayIndex? (key : String) : Option Nat :=
  match key.data with
  | [] => none
  | [c] => digitsValue [c] 0
  | c :: cs =>
    if c = '0' then none
    else
      match digitsValue (c :: cs) 0 with
      | some v => if v < 4294967295 then some v else none
      | none => none

/-- Insert a property into a list sorted by ascending index. -/
def insertByIndex (e : Nat × String × String) :
    List (Nat × String × String) → List (Nat × String × String)
  | [] => [e]
  | x :: xs => if e.1 ≤ x.1 then e :: x :: xs else x :: insertByIndex e xs

/-- The own properties in the order of `Object.keys`: the array indices first,
in ascending numeric order, then the other keys in creation order. -/
def objectEntries (props : List (String × String)) : List (String × String) :=
  ((props.filterMap (fun kv => (arrayIndex? kv.1).map (fun i => (i, kv)))).foldr
      insertByIndex []).map (fun e => e.2)
    ++ props.filter (fun kv => (arrayIndex? kv.1).isNone)

/-- The call `fs.readFileSync(p, "utf-8")`: `none` when there is no such file. -/
def Host.readFileSync (h : Host) (p : String) : Option String :=
  assocGet h.files (pathResolve h.cwd p)

/-- Whether `p` names an existing file. -/
def Host.isFile (h : Host) (p : String) : Bool :=
  (h.readFileSync p).isSome

/-- Whether `p` names an existing directory. -/
def Host.isDir (h : Host) (p : String) : Bool :=
  decide (pathResolve h.cwd p ∈ h.dirs)

/-- The call `fs.existsSync(p)`. -/
def Host.existsSync (h : Host) (p : String) : Bool :=
  h.isFile p || h.isDir p

/-- The first candidate `base ++ mid ++ ext` that is a file, over `exts` in order. -/
def probe (h : Host) (base mid : String) : List String → Option String
  | [] => none
  | ext :: exts =>
    if h.isFile (base ++ mid ++ ext) then some (base ++ mid ++ ext)
    else probe h base mid exts

/-- Modelled from the spec: `tryExtensions` of the absent `./utils`, the
PathResolver of section 4.1. The path itself if it is a file; else the first
`path + ext` that is; else the first `path + "/index" + ext`; else a
`ResolutionError` naming the specifier and the requesting directory. -/
def tryExtensions (h : Host) (modulePath : String) (extensions : List String)
    (originModulePath moduleContext : String) : Except Err String :=
  if h.isFile modulePath then .ok modulePath
  else
    match probe h modulePath "" extensions with
    | some hit => .ok hit
    | none =>
      match probe h modulePath "/index" extensions with
      | some hit => .ok hit
      | none => .error (.resolutionError originModulePath moduleContext)

/-! ## The compiler -/

/-- The constructor: `rootPath` is `options.context`, or the working directory
when that is absent or empty; every collection starts empty. -/
def Compiler.new (h : Host) (o : Options) : Compiler :=
  { rootPath :=
      match o.context with
      | some ctx => if ctx = "" then toUnixPath h.cwd else ctx
      | none => toUnixPath h.cwd
    taps := []
    entries := []
    modules := []
    chunks := []
    assets := []
    files := []
    originSourceCode := ""
    moduleCode := ""
    trace := [] }

/-- The method `PluginB.apply`: tap the `run` hook under the name `Plugin B`. -/
def PluginB.apply (c : Compiler) : Compiler :=
  { c with taps := c.taps ++ [("run", "Plugin B")] }

/-- The names of the listeners tapped on `hook`, in registration order. -/
def listenersOf (taps : List (String × String)) (hook : String) : List String :=
  (taps.filter (fun t => t.1 = hook)).map (fun t => t.2)

/-- The call `this.hooks[hook].call()`: the listeners registered for `hook` run
in registration order, with no argument. -/
def callHook (hook : String) (c : Compiler) : Compiler :=
  { c with trace := c.trace ++ [Event.hookCall hook (listenersOf c.taps hook)] }

/-- The method `getEntry`: a string entry becomes `{ main: entry }`; every
relative path is joined to `rootPath`. `Object.keys` of an absent entry throws. -/
def getEntry (o : Options) (c : Compiler) : Outcome (List (String × String)) :=
  let absolute := fun (kv : String × String) =>
    if pathIsAbsolute kv.2 then kv else (kv.1, toUnixPath (pathJoin c.rootPath kv.2))
  match o.entry with
  | .missing => .throw .typeError c
  | .single path => .ok ([("main", path)].map absolute) c
  | .map entries => .ok (entries.map absolute) c

/-- The loop `for (let i = matchLoaders.length - 1; i >= 0; i--)`, given the
loaders last first: each is `require`d and applied to `moduleCode`. -/
def runLoaders (h : Host) : List String → Compiler → Outcome Unit
  | [], c => .ok () c
  | l :: ls, c =>
    match h.requireLoader l with
    | none => .throw (.moduleNotFound l) c
    | some loaderFn => runLoaders h ls { c with moduleCode := loaderFn c.moduleCode }

/-- The body of `rules.forEach` in `handleLoader`, over the rules left, with
the `matchLoaders` collected so far. A matching rule pushes its `loader`, or
else spreads its `use`; then, for every rule, the loop over `matchLoaders` runs. -/
def handleLoaderRules (h : Host) (modulePath : String) :
    List Rule → List String → Compiler → Outcome Unit
  | [], _, c => .ok () c
  | rule :: rules, matchLoaders, c =>
    let pushed : Option (List String) :=
      if rule.test modulePath then
        match rule.loader with
        | some l =>
          if l ≠ "" then some (matchLoaders ++ [l])
          else rule.use.map (fun u => matchLoaders ++ u)
        | none => rule.use.map (fun u => matchLoaders ++ u)
      else some matchLoaders
    match pushed with
    | none => .throw .typeError c
    | some matchLoaders' =>
      match runLoaders h matchLoaders'.reverse c with
      | .ok _ c' => handleLoaderRules h modulePath rules matchLoaders' c'
      | .throw e c' => .throw e c'
      | .outOfFuel => .outOfFuel

/-- The method `handleLoader`. -/
def handleLoader (h : Host) (o : Options) (modulePath : String) (c : Compiler) : Outcome Unit :=
  handleLoaderRules h modulePath o.rules [] c

/-- The call `set.add(x)` on a `Set` of strings. -/
def setAdd (s : List String) (x : String) : List String :=
  if x ∈ s then s else s ++ [x]

/-- The body of the `CallExpression` visitor once the callee is `require`
(lines 132-163). The result is the new argument literal and the dependency set.
`this.module` is not a property of the compiler, so the `else` branch throws. -/
def visitRequire (h : Host) (o : Options) (rootPath : String) (modules : List Module)
    (modulePath : String) (args : NodeList) (deps : List String) :
    Except Err (String × List String) :=
  match args with
  | .nil => .error .typeError
  | .cons arg0 _ =>
    let moduleDirName := toUnixPath (pathDirname modulePath)
    match arg0.value with
    | .str requirePath =>
      match tryExtensions h (toUnixPath (pathJoin moduleDirName requirePath))
          o.resolveExtensions requirePath moduleDirName with
      | .error e => .error e
      | .ok absolutePath =>
        let moduleId := "./" ++ toUnixPath (pathRelative h.cwd rootPath absolutePath)
        let alreadyModules := modules.map (fun i => i.id)
        if moduleId ∉ alreadyModules then .ok (moduleId, setAdd deps moduleId)
        else .error .typeError
    | _ => .error .typeError

mutual
/-- The call `traverse(ast, { CallExpression })`: depth first, a node before its
children. A `require` call becomes `__webpack_require__(<id>)`; its new
children are an identifier and a string literal, in which nothing is visited. -/
def traverseNode (h : Host) (o : Options) (rootPath : String) (modules : List Module)
    (modulePath : String) : Node → List String → Except Err (Node × List String)
  | .callExpression callee args, deps =>
    if callee.name? = some "require" then
      match visitRequire h o rootPath modules modulePath args deps with
      | .error e => .error e
      | .ok (moduleId, deps') =>
        .ok (.callExpression (.identifier "__webpack_require__")
              (.cons (.stringLiteral moduleId) .nil), deps')
    else
      match traverseNode h o rootPath modules modulePath callee deps with
      | .error e => .error e
      | .ok (callee', deps1) =>
        match traverseList h o rootPath modules modulePath args deps1 with
        | .error e => .error e
        | .ok (args', deps2) => .ok (.callExpression callee' args', deps2)
  | .other type children, deps =>
    match traverseList h o rootPath modules modulePath children deps with
    | .error e => .error e
    | .ok (children', deps') => .ok (.other type children', deps')
  | node, deps => .ok (node, deps)
/-- The traversal of a list of child nodes, left to right. -/
def traverseList (h : Host) (o : Options) (rootPath : String) (modules : List Module)
    (modulePath : String) : NodeList → List String → Except Err (NodeList × List String)
  | .nil, deps => .ok (.nil, deps)
  | .cons n ns, deps =>
    match traverseNode h o rootPath modules modulePath n deps with
    | .error e => .error e
    | .ok (n', deps1) =>
      match traverseList h o rootPath modules modulePath ns deps1 with
      | .error e => .error e
      | .ok (ns', deps2) => .ok (.cons n' ns', deps2)
end

/-- The loop `module.dependencies.forEach` (lines 172-175): each dependency is
built by `build` and the result added to `this.modules`. -/
def buildDependencies (build : String → Compiler → Outcome Module) :
    List String → Compiler → Outcome Unit
  | [], c => .ok () c
  | dependency :: rest, c =>
    match build dependency c with
    | .ok depModule c' =>
      buildDependencies build rest { c' with modules := c'.modules ++ [depModule] }
    | .throw e c' => .throw e c'
    | .outOfFuel => .outOfFuel

/-- The method `handleWebpackCompiler`; `build` is `this.buildModule`. -/
def handleWebpackCompiler (build : String → String → Compiler → Outcome Module)
    (h : Host) (o : Options) (moduleName modulePath : String) (c : Compiler) : Outcome Module :=
  let moduleId := "./" ++ toUnixPath (pathRelative h.cwd c.rootPath modulePath)
  match h.parse c.moduleCode with
  | none => .throw .parseError c
  | some ast =>
    match traverseNode h o c.rootPath c.modules modulePath ast [] with
    | .error e => .throw e c
    | .ok (ast', dependencies) =>
      let code := h.generate ast'
      match buildDependencies (build moduleName) dependencies c with
      | .ok _ c' =>
        .ok { id := moduleId, dependencies := dependencies, name := [moduleName],
              _source := code } c'
      | .throw e c' => .throw e c'
      | .outOfFuel => .outOfFuel

/-- The method `buildModule`: read the file, run the loaders, compile. One unit
of fuel is one level of the recursion through `handleWebpackCompiler`. -/
def buildModule (h : Host) (o : Options) : Nat → String → String → Compiler → Outcome Module
  | 0, _, _, _ => .outOfFuel
  | fuel + 1, moduleName, modulePath, c =>
    let c0 := { c with trace := c.trace ++ [Event.readFile modulePath] }
    match h.readFileSync modulePath with
    | none => .throw (.enoent modulePath) c0
    | some originSourceCode =>
      let c1 := { c0 with originSourceCode := originSourceCode, moduleCode := originSourceCode }
      match handleLoader h o modulePath c1 with
      | .ok _ c2 => handleWebpackCompiler (buildModule h o fuel) h o moduleName modulePath c2
      | .throw e c2 => .throw e c2
      | .outOfFuel => .outOfFuel

/-- The method `buildUpChunk`. -/
def buildUpChunk (entryName : String) (entryObj : Module) (c : Compiler) : Compiler :=
  { c with chunks := c.chunks ++
      [{ name := entryName, entryModule := entryObj,
         modules := c.modules.filter (fun i => decide (entryName ∈ i.name)) }] }

/-- The method `buildEntryModule`, over the entries in `Object.keys` order. -/
def buildEntryModule (h : Host) (o : Options) (fuel : Nat) :
    List (String × String) → Compiler → Outcome Unit
  | [], c => .ok () c
  | (entryName, entryPath) :: rest, c =>
    match buildModule h o fuel entryName entryPath c with
    | .ok entryObj c1 =>
      buildEntryModule h o fuel rest
        (buildUpChunk entryName entryObj { c1 with entries := c1.entries ++ [entryObj] })
    | .throw e c1 => .throw e c1
    | .outOfFuel => .outOfFuel

/-- The loop `this.chunks.forEach` of `exportFile` (lines 51-54). -/
def computeAssets (h : Host) (o : Options) : List Chunk → Compiler → Outcome Unit
  | [], c => .ok () c
  | chunk :: rest, c =>
    match o.output with
    | none => .throw .typeError c
    | some output =>
      match output.filename with
      | none => .throw .typeError c
      | some filename =>
        let parseFileName := stringReplace filename "[name]" chunk.name
        match setAssetProperty c.assets parseFileName (h.getSourceCode chunk) with
        | none => .throw .typeError c
        | some assets =>
          computeAssets h o rest
            { c with assets := assets
                     trace := c.trace ++ [Event.assetComputed parseFileName] }

/-- The loop `Object.keys(this.assets).forEach` of `exportFile` (lines 63-66),
over the properties in `Object.keys` order: a write fails when the directory of
the file does not exist. -/
def writeAssets (h : Host) (outputPath : String) (dirs : List String) :
    List (String × String) → Compiler → Outcome Unit
  | [], c => .ok () c
  | (filename, content) :: rest, c =>
    let filePath := pathJoin outputPath filename
    if pathDirname (pathResolve h.cwd filePath) ∈ dirs then
      writeAssets h outputPath dirs rest
        { c with trace := c.trace ++ [Event.writeFile filePath content] }
    else .throw (.enoent filePath) c

/-- The method `exportFile`. -/
def exportFile (h : Host) (o : Options) (c : Compiler) : Outcome Unit :=
  match computeAssets h o c.chunks c with
  | .ok _ c1 =>
    let c2 := callHook "emit" c1
    match o.output with
    | none => .throw .typeError c2
    | some output =>
      match output.path with
      | none => .throw .typeError c2
      | some outputPath =>
        let made : Option (List String × Compiler) :=
          if h.existsSync outputPath then some (h.dirs, c2)
          else if pathDirname (pathResolve h.cwd outputPath) ∈ h.dirs then
            some (pathResolve h.cwd outputPath :: h.dirs,
                  { c2 with trace := c2.trace ++ [Event.mkdir outputPath] })
          else none
        match made with
        | none => .throw (.enoent outputPath) c2
        | some (dirs, c3) =>
          let c4 := { c3 with files := (objectEntries c3.assets).map (fun a => a.1) }
          match writeAssets h outputPath dirs (objectEntries c4.assets) c4 with
          | .ok _ c5 =>
            let c6 := callHook "done" c5
            .ok () { c6 with trace := c6.trace ++ [Event.callback] }
          | .throw e c5 => .throw e c5
          | .outOfFuel => .outOfFuel
  | .throw e c1 => .throw e c1
  | .outOfFuel => .outOfFuel

/-- The method `run`. -/
def run (h : Host) (o : Options) (fuel : Nat) (c : Compiler) : Outcome Unit :=
  let c1 := callHook "run" c
  match getEntry o c1 with
  | .ok entry c2 =>
    match buildEntryModule h o fuel entry c2 with
    | .ok _ c3 => exportFile h o c3
    | .throw e c3 => .throw e c3
    | .outOfFuel => .outOfFuel
  | .throw e c2 => .throw e c2
  | .outOfFuel => .outOfFuel

/-! ## Concrete hosts -/

namespace Example

mutual
/-- A small code generator standing in for Babel's `generator`. -/
def render : Node → String
  | .identifier n => n
  | .stringLiteral v => "\"" ++ v ++ "\""
  | .numericLiteral r => r
  | .booleanLiteral b => if b then "true" else "false"
  | .bigIntLiteral v => v ++ "n"
  | .callExpression callee args => render callee ++ "(" ++ renderList args ++ ")"
  | .other type children => type ++ "[" ++ renderList children ++ "]"
/-- Render a list of nodes, separated by commas. -/
def renderList : NodeList → String
  | .nil => ""
  | .cons n .nil => render n
  | .cons n (.cons m ms) => render n ++ ", " ++ renderList (.cons m ms)
end

/-- The statement `require("<specifier>");` as a syntax tree. -/
def requireStmt (specifier : String) : Node :=
  .other "ExpressionStatement"
    (.cons (.callExpression (.identifier "require") (.cons (.stringLiteral specifier) .nil)) .nil)

/-- The tree of `const c = require("./common"); console.log(c);`. -/
def astIndex : Node :=
  .other "Program"
    (.cons (.other "VariableDeclaration"
      (.cons (.other "VariableDeclarator"
        (.cons (.identifier "c")
          (.cons (.callExpression (.identifier "require")
            (.cons (.stringLiteral "./common") .nil)) .nil))) .nil))
    (.cons (.other "ExpressionStatement"
      (.cons (.callExpression
        (.other "MemberExpression" (.cons (.identifier "console") (.cons (.identifier "log") .nil)))
        (.cons (.identifier "c") .nil)) .nil))
    .nil))

/-- The tree of `module.exports = <n>;`. -/
def astExports (n : String) : Node :=
  .other "Program"
    (.cons (.other "ExpressionStatement"
      (.cons (.other "AssignmentExpression"
        (.cons (.other "MemberExpression"
          (.cons (.identifier "module") (.cons (.identifier "exports") .nil)))
        (.cons (.numericLiteral n) .nil))) .nil)) .nil)

/-- The tree of `require(x);`. -/
def astDynamic : Node :=
  .other "Program" (.cons (.other "ExpressionStatement"
    (.cons (.callExpression (.identifier "require") (.cons (.identifier "x") .nil)) .nil)) .nil)

/-- A parser for the source texts used below. -/
def parse (src : String) : Option Node :=
  if src = "const c = require(\"./common\"); console.log(c);" then some astIndex
  else if src = "module.exports = 1;" then some (astExports "1")
  else if src = "module.exports = 2;" then some (astExports "2")
  else if src = "require(\"./z\");" then some (.other "Program" (.cons (requireStmt "./z") .nil))
  else if src = "require(\"./y\"); require(\"./z\");" then
    some (.other "Program" (.cons (requireStmt "./y") (.cons (requireStmt "./z") .nil)))
  else if src = "require(\"./a\");" then some (.other "Program" (.cons (requireStmt "./a") .nil))
  else if src = "require(\"./b\");" then some (.other "Program" (.cons (requireStmt "./b") .nil))
  else if src = "require(x);" then some astDynamic
  else none

/-- A host with working directory `cwd` and the given files. -/
def host (cwd : String) (files : List (String × String)) : Host :=
  { cwd := cwd
    files := files
    dirs := ["/", "/proj", "/other"]
    parse := parse
    generate := render
    requireLoader := fun _ => none
    getSourceCode := fun chunk => chunk.entryModule._source }

/-- Options with the given context and entry, extensions `[".js"]`, no rules
and output `/proj/dist/[name].js`. -/
def options (context : Option String) (entry : EntryOption) : Options :=
  { context := context
    entry := entry
    output := some { filename := some "[name].js", path := some "/proj/dist" }
    resolveExtensions := [".js"]
    rules := [] }

/-- The end-to-end tree of section 8: `index.js` requires `./common`. -/
def hostE2E : Host :=
  host "/proj"
    [("/proj/index.js", "const c = require(\"./common\"); console.log(c);"),
     ("/proj/common.js", "module.exports = 1;")]

/-- The entry map `{ main: "/proj/index.js" }`. -/
def optionsE2E : Options := options none (.map [("main", "/proj/index.js")])

/-- Two entries whose files both require `./z`. -/
def hostShared : Host :=
  host "/proj"
    [("/proj/x.js", "require(\"./z\");"),
     ("/proj/y.js", "require(\"./z\");"),
     ("/proj/z.js", "module.exports = 1;")]

/-- The entry map `{ e1: "/proj/x.js", e2: "/proj/y.js" }`. -/
def optionsShared : Options := options none (.map [("e1", "/proj/x.js"), ("e2", "/proj/y.js")])

/-- The entry requires `./y` and `./z`, in that order, and `y.js` requires `./z`. -/
def hostDiamond : Host :=
  host "/proj"
    [("/proj/index.js", "require(\"./y\"); require(\"./z\");"),
     ("/proj/y.js", "require(\"./z\");"),
     ("/proj/z.js", "module.exports = 1;")]

/-- The entry map `{ main: "/proj/index.js" }` for `hostDiamond`. -/
def optionsDiamond : Options := options none (.map [("main", "/proj/index.js")])

/-- A cycle: `a.js` requires `./b` and `b.js` requires `./a`. -/
def hostCycle : Host :=
  host "/proj"
    [("/proj/a.js", "require(\"./b\");"),
     ("/proj/b.js", "require(\"./a\");")]

/-- The entry map `{ main: "/proj/a.js" }`. -/
def optionsCycle : Options := options none (.map [("main", "/proj/a.js")])

/-- The end-to-end tree under `/proj`, in a process whose working directory is
`/other`, where another `common.js` lies. -/
def hostContext : Host :=
  host "/other"
    [("/proj/index.js", "const c = require(\"./common\"); console.log(c);"),
     ("/proj/common.js", "module.exports = 1;"),
     ("/other/common.js", "module.exports = 2;")]

/-- The options `{ context: "/proj", entry: { main: "/proj/index.js" } }`. -/
def optionsContext : Options := options (some "/proj") (.map [("main", "/proj/index.js")])

/-- The end-to-end options without `output`. -/
def optionsNoOutput : Options := { optionsE2E with output := none }

/-- The end-to-end options without `entry`. -/
def optionsNoEntry : Options := { optionsE2E with entry := .missing }

/-- A file whose only statement is `require(x);`, next to a file `10.js`. -/
def hostDynamic : Host :=
  host "/proj" [("/proj/index.js", "require(x);"), ("/proj/10.js", "module.exports = 1;")]

/-- A host with two loaders: `a` appends `A` to the code, `b` appends `B`. -/
def hostLoaders : Host :=
  { hostE2E with
    requireLoader := fun request =>
      if request = "a" then some (fun code => code ++ "A")
      else if request = "b" then some (fun code => code ++ "B")
      else none }

/-- Test of a rule matching paths that end in `.js`. -/
def endsWithJs (p : String) : Bool := (".js".data.reverse).isPrefixOf p.data.reverse

/-- Rules: `{ test: /\\.js$/, use: ["a"] }` and `{ test: /\\.css$/, use: ["b"] }`. -/
def rulesOneMatch : List Rule :=
  [{ test := endsWithJs, loader := none, use := some ["a"] },
   { test := fun p => (".css".data.reverse).isPrefixOf p.data.reverse, loader := none,
     use := some ["b"] }]

/-- Rules: `{ test: /\\.js$/, use: ["a"] }` and `{ test: /\\.js$/, loader: "b" }`. -/
def rulesTwoMatches : List Rule :=
  [{ test := endsWithJs, loader := none, use := some ["a"] },
   { test := endsWithJs, loader := some "b", use := none }]

end Example

/-! ## Observations and the specification's words -/

/-- The ids of the modules of every chunk, by chunk name. -/
def chunkModuleIds (c : Compiler) : List (String × List String) :=
  c.chunks.map (fun chunk => (chunk.name, chunk.modules.map (fun m => m.id)))

/-- The compiler state an outcome carries, if any. -/
def Outcome.state? {α : Type} : Outcome α → Option Compiler
  | .ok _ c => some c
  | .throw _ c => some c
  | .outOfFuel => none

/-- The exception an outcome carries, if any. -/
def Outcome.error? {α : Type} : Outcome α → Option Err
  | .throw e _ => some e
  | _ => none

/-- Whether the call returned. -/
def Outcome.isOk {α : Type} : Outcome α → Bool
  | .ok _ _ => true
  | _ => false

/-- The paths read, in order. -/
def readPaths : List Event → List String
  | [] => []
  | .readFile p :: rest => p :: readPaths rest
  | _ :: rest => readPaths rest

/-- At most one module per id in `this.modules`. -/
def AtMostOneModulePerId (c : Compiler) : Prop :=
  (c.modules.map (fun m => m.id)).Nodup

/-- The loaders of the matching rules, concatenated in rule order: `[l1..ln]`. -/
def matchedLoaders (modulePath : String) : List Rule → List String
  | [] => []
  | rule :: rules =>
    (if rule.test modulePath then
      match rule.loader with
      | some l => if l ≠ "" then [l] else rule.use.getD []
      | none => rule.use.getD []
    else []) ++ matchedLoaders modulePath rules

/-- The composition `l1(l2(...ln(source)))` of the loaders `[l1..ln]`; `none`
when one of them cannot be loaded. -/
def applyChain (h : Host) : List String → String → Option String
  | [], source => some source
  | l :: ls, source =>
    match applyChain h ls source, h.requireLoader l with
    | some inner, some loaderFn => some (loaderFn inner)
    | _, _ => none

/-- The pairs (id, owning entries) of `this.modules`. -/
def moduleOwners (c : Compiler) : List (String × List String) :=
  c.modules.map (fun m => (m.id, m.name))

/-- What a successful build for the entry `name` changes in the compiler: it
appends modules owned by `name` to `this.modules` and file reads to the trace
(and overwrites the scratch fields `moduleCode` and `originSourceCode`). -/
def BuildFrame (name : String) (c c' : Compiler) : Prop :=
  c'.rootPath = c.rootPath ∧ c'.taps = c.taps ∧ c'.entries = c.entries ∧ c'.chunks = c.chunks
  ∧ c'.assets = c.assets ∧ c'.files = c.files
  ∧ (∃ ms, c'.modules = c.modules ++ ms ∧ ∀ m ∈ ms, m.name = [name])
  ∧ (∃ evs, c'.trace = c.trace ++ evs ∧ ∀ e ∈ evs, ∃ p, e = Event.readFile p)

/-- The id of the file a specifier resolves to when required from `modulePath`:
`"./"` followed by the POSIX path of the resolved file relative to `rootPath`;
`none` when the specifier does not resolve. -/
def resolvedId (h : Host) (o : Options) (rootPath modulePath specifier : String) :
    Option String :=
  match tryExtensions h (toUnixPath (pathJoin (toUnixPath (pathDirname modulePath)) specifier))
      o.resolveExtensions specifier (toUnixPath (pathDirname modulePath)) with
  | .ok resolved => some ("./" ++ toUnixPath (pathRelative h.cwd rootPath resolved))
  | .error _ => none

mutual
/-- The rewrite in the specification's words, `idOf` giving the canonical id of
a specifier. A call of the identifier `require` with a string-literal first
argument becomes a call of `__webpack_require__` with exactly one argument, the
id literal. A call whose callee is not the identifier `require` keeps its shape:
it is not rewritten itself, only the calls inside its callee and arguments are.
Every other node keeps its type, and leaves are unchanged. A `require` call
whose first argument is not a string literal is not constrained here. -/
inductive Rewritten (idOf : String → Option String) : Node → Node → Prop where
  | require (s : String) (rest : NodeList) (id : String) (hid : idOf s = some id) :
      Rewritten idOf
        (.callExpression (.identifier "require") (.cons (.stringLiteral s) rest))
        (.callExpression (.identifier "__webpack_require__")
          (.cons (.stringLiteral id) .nil))
  | requireOther (args : NodeList) (n : Node)
      (hargs : ∀ s rest, args ≠ .cons (.stringLiteral s) rest) :
      Rewritten idOf (.callExpression (.identifier "require") args) n
  | call (callee callee' : Node) (args args' : NodeList)
      (hcallee : callee.name? ≠ some "require")
      (hc : Rewritten idOf callee callee') (ha : RewrittenList idOf args args') :
      Rewritten idOf (.callExpression callee args) (.callExpression callee' args')
  | other (type : String) (children children' : NodeList)
      (hch : RewrittenList idOf children children') :
      Rewritten idOf (.other type children) (.other type children')
  | identifier (name : String) : Rewritten idOf (.identifier name) (.identifier name)
  | stringLiteral (v : String) : Rewritten idOf (.stringLiteral v) (.stringLiteral v)
  | numericLiteral (r : String) : Rewritten idOf (.numericLiteral r) (.numericLiteral r)
  | booleanLiteral (b : Bool) : Rewritten idOf (.booleanLiteral b) (.booleanLiteral b)
  | bigIntLiteral (v : String) : Rewritten idOf (.bigIntLiteral v) (.bigIntLiteral v)
/-- The rewrite of a list of nodes, node by node. -/
inductive RewrittenList (idOf : String → Option String) : NodeList → NodeList → Prop where
  | nil : RewrittenList idOf .nil .nil
  | cons (n n' : Node) (ns ns' : NodeList)
      (hn : Rewritten idOf n n') (hns : RewrittenList idOf ns ns') :
      RewrittenList idOf (.cons n ns) (.cons n' ns')
end

mutual
/-- Whether the tree has a call whose callee is the identifier `require`. -/
def containsRequire : Node → Bool
  | .callExpression callee args =>
    decide (callee.name? = some "require") || containsRequire callee || containsRequireList args
  | .other _ children => containsRequireList children
  | _ => false
/-- Whether one of the nodes has such a call. -/
def containsRequireList : NodeList → Bool
  | .nil => false
  | .cons n ns => containsRequire n || containsRequireList ns
end

/-- Every chunk lists exactly the modules of `this.modules` owned by its name,
and its entry module is owned by its name. -/
def ChunksConsistent (c : Compiler) : Prop :=
  ∀ chunk ∈ c.chunks,
    chunk.modules = c.modules.filter (fun m => decide (chunk.name ∈ m.name))
    ∧ chunk.entryModule.name = [chunk.name]

/-- The tree of `const c = __webpack_require__("./common.js"); console.log(c);`. -/
def Example.astIndexRewritten : Node :=
  .other "Program"
    (.cons (.other "VariableDeclaration"
      (.cons (.other "VariableDeclarator"
        (.cons (.identifier "c")
          (.cons (.callExpression (.identifier "__webpack_require__")
            (.cons (.stringLiteral "./common.js") .nil)) .nil))) .nil))
    (.cons (.other "ExpressionStatement"
      (.cons (.callExpression
        (.other "MemberExpression" (.cons (.identifier "console") (.cons (.identifier "log") .nil)))
        (.cons (.identifier "c") .nil)) .nil))
    .nil))

/-- The names of the hooks called, in order. -/
def hookCalls : List Event → List String
  | [] => []
  | .hookCall hook _ :: rest => hook :: hookCalls rest
  | _ :: rest => hookCalls rest

/-- The case of C8: `options.output` is absent, or its `path` is, or its
`filename` is while there is a chunk to name. -/
def OutputMissing (o : Options) (chunks : List Chunk) : Prop :=
  o.output = none
  ∨ ∃ out, o.output = some out ∧ (out.path = none ∨ (out.filename = none ∧ chunks ≠ []))

/-- The end-to-end compiler with `PluginB` applied. -/
def Example.compilerE2E : Compiler := PluginB.apply (Compiler.new Example.hostE2E Example.optionsE2E)

/-- The compiler after `run` on the end-to-end tree with `PluginB`. -/
def Example.ranE2E : Compiler :=
  ((run Example.hostE2E Example.optionsE2E 5 Example.compilerE2E).state?).getD Example.compilerE2E

/-- The string the visitor reads as `node.arguments[0].value`, when there is a
first argument and its `value` is a string. -/
def requireSpecifier? : NodeList → Option String
  | .nil => none
  | .cons a _ =>
    match a.value with
    | .str s => some s
    | _ => none

/-- A `require` call is dynamic when it has no argument or its first argument
carries no string `value`. -/
def dynamicArgs (args : NodeList) : Bool := (requireSpecifier? args).isNone

mutual
/-- The arguments of the first call of the identifier `require` the traversal
meets, in visiting order. -/
def firstRequire? : Node → Option NodeList
  | .callExpression callee args =>
    if callee.name? = some "require" then some args
    else
      match firstRequire? callee with
      | some found => some found
      | none => firstRequireList? args
  | .other _ children => firstRequireList? children
  | _ => none
/-- The same over a list of nodes. -/
def firstRequireList? : NodeList → Option NodeList
  | .nil => none
  | .cons n ns =>
    match firstRequire? n with
    | some found => some found
    | none => firstRequireList? ns
end

mutual
/-- Whether one of the calls of the identifier `require` on the traversal's way
is dynamic. The arguments of a `require` call are not on its way. -/
def visitsDynamicRequire : Node → Bool
  | .callExpression callee args =>
    if callee.name? = some "require" then dynamicArgs args
    else visitsDynamicRequire callee || visitsDynamicRequireList args
  | .other _ children => visitsDynamicRequireList children
  | _ => false
/-- The same over a list of nodes. -/
def visitsDynamicRequireList : NodeList → Bool
  | .nil => false
  | .cons n ns => visitsDynamicRequire n || visitsDynamicRequireList ns
end

mutual
/-- The string specifiers of the `require` calls on the traversal's way. -/
def visitedSpecifiers : Node → List String
  | .callExpression callee args =>
    if callee.name? = some "require" then (requireSpecifier? args).toList
    else visitedSpecifiers callee ++ visitedSpecifiersList args
  | .other _ children => visitedSpecifiersList children
  | _ => []
/-- The same over a list of nodes. -/
def visitedSpecifiersList : NodeList → List String
  | .nil => []
  | .cons n ns => visitedSpecifiers n ++ visitedSpecifiersList ns
end

/-- The canonical id of the file at `path`: `"./"` followed by its POSIX path
relative to `rootPath` (lines 115-116). -/
def canonicalId (h : Host) (rootPath path : String) : String :=
  "./" ++ toUnixPath (pathRelative h.cwd rootPath path)

/-- The module of the end-to-end `index.js`. -/
def Example.moduleIndexE2E : Module :=
  { id := "./index.js"
    dependencies := ["./common.js"]
    name := ["main"]
    _source := "Program[VariableDeclaration[VariableDeclarator[c, __webpack_require__(\"./common.js\")]], ExpressionStatement[MemberExpression[console, log](c)]]" }

/-- The module of the end-to-end `common.js`. -/
def Example.moduleCommonE2E : Module :=
  { id := "./common.js"
    dependencies := []
    name := ["main"]
    _source := "Program[ExpressionStatement[AssignmentExpression[MemberExpression[module, exports], 1]]]" }

/-- The compiler after `buildEntryModule` on the end-to-end tree: `index.js` is
the entry module of chunk `main`, `common.js` its only module. -/
def Example.builtE2E : Compiler :=
  { rootPath := "/proj"
    taps := []
    entries := [Example.moduleIndexE2E]
    modules := [Example.moduleCommonE2E]
    chunks := [{ name := "main", entryModule := Example.moduleIndexE2E,
                 modules := [Example.moduleCommonE2E] }]
    assets := []
    files := []
    originSourceCode := "module.exports = 1;"
    moduleCode := "module.exports = 1;"
    trace := [Event.readFile "/proj/index.js", Event.readFile "./common.js"] }

/-! ## Theorems -/

open Example

/-- C1 (failing input). Entries `e1` and `e2` both require `./z`. With enough
fuel the build of `e2` throws a `TypeError` at `this.module.forEach` (`this.module`
is undefined), leaving one module for `./z.js` owned by `e1` alone; with less
fuel it does not finish. In no case does `buildEntryModule` complete. -/
theorem shared_dependency_throws (fuel : Nat) :
    (buildEntryModule hostShared optionsShared fuel
        [("e1", "/proj/x.js"), ("e2", "/proj/y.js")]
        (Compiler.new hostShared optionsShared)).isOk = false
    ∧ (buildEntryModule hostShared optionsShared (fuel + 2)
        [("e1", "/proj/x.js"), ("e2", "/proj/y.js")]
        (Compiler.new hostShared optionsShared)).error? = some Err.typeError
    ∧ (buildEntryModule hostShared optionsShared (fuel + 2)
        [("e1", "/proj/x.js"), ("e2", "/proj/y.js")]
        (Compiler.new hostShared optionsShared)).state?.map moduleOwners
      = some [("./z.js", ["e1"])] := by
  refine ⟨?_, rfl, rfl⟩
  match fuel with
  | 0 => rfl
  | 1 => rfl
  | n + 2 => rfl

/-- C2 (failing input). The entry requires `./y` and `./z`, and `y.js` requires
`./z`: `buildEntryModule` completes and `this.modules` holds two modules with
the id `./z.js`. -/
theorem diamond_builds_module_twice (fuel : Nat) :
    (buildEntryModule hostDiamond optionsDiamond (fuel + 3) [("main", "/proj/index.js")]
        (Compiler.new hostDiamond optionsDiamond)).isOk = true
    ∧ (buildEntryModule hostDiamond optionsDiamond (fuel + 3) [("main", "/proj/index.js")]
        (Compiler.new hostDiamond optionsDiamond)).state?.map moduleOwners
      = some [("./z.js", ["main"]), ("./y.js", ["main"]), ("./z.js", ["main"])]
    ∧ ∃ c, (buildEntryModule hostDiamond optionsDiamond (fuel + 3) [("main", "/proj/index.js")]
        (Compiler.new hostDiamond optionsDiamond)).state? = some c ∧ ¬ AtMostOneModulePerId c := by
  refine ⟨rfl, rfl, _, rfl, ?_⟩
  show ¬ (["./z.js", "./y.js", "./z.js"] : List String).Nodup
  decide

/-- Without rules `handleLoader` returns at once. -/
theorem handleLoader_no_rules (h : Host) (o : Options) (p : String) (c : Compiler)
    (hrules : o.rules = []) : handleLoader h o p c = .ok () c := by
  simp [handleLoader, hrules, handleLoaderRules]

/-- One level of `buildModule` when the file is read, no rule applies, the code
parses and the traversal succeeds with dependencies `deps`. -/
theorem buildModule_step (h : Host) (o : Options) (n : Nat) (name p src : String)
    (c : Compiler) (ast ast' : Node) (deps : List String)
    (hread : h.readFileSync p = some src) (hrules : o.rules = [])
    (hparse : h.parse src = some ast)
    (htrav : traverseNode h o c.rootPath c.modules p ast [] = .ok (ast', deps)) :
    buildModule h o (n + 1) name p c =
      match buildDependencies (buildModule h o n name) deps
          { c with trace := c.trace ++ [Event.readFile p], originSourceCode := src,
                   moduleCode := src } with
      | .ok _ c' =>
        .ok { id := "./" ++ toUnixPath (pathRelative h.cwd c.rootPath p),
              dependencies := deps, name := [name], _source := h.generate ast' } c'
      | .throw e c' => .throw e c'
      | .outOfFuel => .outOfFuel := by
  simp only [buildModule, hread, handleLoader_no_rules h o p _ hrules, handleWebpackCompiler,
    hparse, htrav]

/-- In the cycle, building `./a.js` or `./b.js` on a compiler rooted at `/proj`
without modules exhausts every amount of fuel. -/
theorem cycle_step (fuel : Nat) : ∀ c : Compiler, c.rootPath = "/proj" → c.modules = [] →
    buildModule hostCycle optionsCycle fuel "main" "./a.js" c = .outOfFuel
    ∧ buildModule hostCycle optionsCycle fuel "main" "./b.js" c = .outOfFuel := by
  induction fuel with
  | zero => intro c _ _; exact ⟨rfl, rfl⟩
  | succ n ih =>
    intro c hroot hmods
    constructor
    · rw [buildModule_step hostCycle optionsCycle n "main" "./a.js" "require(\"./b\");" c
        _ _ ["./b.js"] rfl rfl rfl (by rw [hroot, hmods]; rfl)]
      simp only [buildDependencies]
      rw [(ih { c with trace := c.trace ++ [Event.readFile "./a.js"],
                       originSourceCode := "require(\"./b\");",
                       moduleCode := "require(\"./b\");" } hroot hmods).2]
    · rw [buildModule_step hostCycle optionsCycle n "main" "./b.js" "require(\"./a\");" c
        _ _ ["./a.js"] rfl rfl rfl (by rw [hroot, hmods]; rfl)]
      simp only [buildDependencies]
      rw [(ih { c with trace := c.trace ++ [Event.readFile "./b.js"],
                       originSourceCode := "require(\"./a\");",
                       moduleCode := "require(\"./a\");" } hroot hmods).1]

/-- C3 (failing input). `a.js` requires `./b` and `b.js` requires `./a`:
`buildModule` started at `a.js` does not return for any amount of fuel, so the
recursion through `handleWebpackCompiler` is not well-founded on a cycle. -/
theorem cycle_never_terminates (fuel : Nat) :
    buildModule hostCycle optionsCycle fuel "main" "/proj/a.js"
      (Compiler.new hostCycle optionsCycle) = .outOfFuel := by
  cases fuel with
  | zero => rfl
  | succ n =>
    rw [buildModule_step hostCycle optionsCycle n "main" "/proj/a.js" "require(\"./b\");"
        (Compiler.new hostCycle optionsCycle) _ _ ["./b.js"] rfl rfl rfl rfl]
    simp only [buildDependencies]
    rw [(cycle_step n { Compiler.new hostCycle optionsCycle with
          trace := (Compiler.new hostCycle optionsCycle).trace ++ [Event.readFile "/proj/a.js"],
          originSourceCode := "require(\"./b\");",
          moduleCode := "require(\"./b\");" } rfl rfl).2]

/-- C6 (failing input). Context `/proj`, working directory `/other`. The entry
requires `./common`, which resolves to `/proj/common.js` and is written into the
entry's code as `./common.js`. The recursive `buildModule` receives that id as
its path, so the file read is `/other/common.js` (`module.exports = 2;`) and the
module built has the id `./../other/common.js`, not the literal `./common.js`. -/
theorem dependency_path_is_the_id (fuel : Nat) :
    tryExtensions hostContext "/proj/common" [".js"] "./common" "/proj" = .ok "/proj/common.js"
    ∧ (buildEntryModule hostContext optionsContext (fuel + 2) [("main", "/proj/index.js")]
        (Compiler.new hostContext optionsContext)).state?.map
          (fun c => c.entries.map (fun m => (m.dependencies, m._source)))
      = some [(["./common.js"],
          "Program[VariableDeclaration[VariableDeclarator[c, __webpack_require__(\"./common.js\")]], ExpressionStatement[MemberExpression[console, log](c)]]")]
    ∧ (buildEntryModule hostContext optionsContext (fuel + 2) [("main", "/proj/index.js")]
        (Compiler.new hostContext optionsContext)).state?.map (fun c => readPaths c.trace)
      = some ["/proj/index.js", "./common.js"]
    ∧ pathResolve hostContext.cwd "./common.js" = "/other/common.js"
    ∧ (buildEntryModule hostContext optionsContext (fuel + 2) [("main", "/proj/index.js")]
        (Compiler.new hostContext optionsContext)).state?.map
          (fun c => c.modules.map (fun m => (m.id, m.name, m._source)))
      = some [("./../other/common.js", ["main"],
          "Program[ExpressionStatement[AssignmentExpression[MemberExpression[module, exports], 2]]]")] :=
  ⟨rfl, rfl, rfl, rfl, rfl⟩

/-- C10 (failing input). With the rules `[(.js: use a), (.css: use b)]` and a
`.js` module, loader `a` runs once after each rule: the code `x` becomes `xAA`,
where the composition over the matched loaders gives `xA`. With two matching
rules `[(.js: use a), (.js: loader b)]` the code becomes `xABA`, not `xBA`. -/
theorem loaders_rerun_after_every_rule :
    (handleLoader hostLoaders { optionsE2E with rules := rulesOneMatch } "/proj/index.js"
        { Compiler.new hostLoaders optionsE2E with moduleCode := "x" }).state?.map
          (fun c => c.moduleCode) = some "xAA"
    ∧ applyChain hostLoaders (matchedLoaders "/proj/index.js" rulesOneMatch) "x" = some "xA"
    ∧ (handleLoader hostLoaders { optionsE2E with rules := rulesTwoMatches } "/proj/index.js"
        { Compiler.new hostLoaders optionsE2E with moduleCode := "x" }).state?.map
          (fun c => c.moduleCode) = some "xABA"
    ∧ applyChain hostLoaders (matchedLoaders "/proj/index.js" rulesTwoMatches) "x" = some "xBA" :=
  ⟨rfl, rfl, rfl, rfl⟩

/-- C5 (counterexample). `index.js` requires `./common` under the entry `main`:
`buildEntryModule` completes and the modules of chunk `main` are `./common.js`
alone; the entry's own module `./index.js` is the chunk's `entryModule`. -/
theorem chunk_modules_omit_entry_module :
    (buildEntryModule hostE2E optionsE2E 5 [("main", "/proj/index.js")]
        (Compiler.new hostE2E optionsE2E)).isOk = true
    ∧ (buildEntryModule hostE2E optionsE2E 5 [("main", "/proj/index.js")]
        (Compiler.new hostE2E optionsE2E)).state?.map chunkModuleIds
      = some [("main", ["./common.js"])]
    ∧ (buildEntryModule hostE2E optionsE2E 5 [("main", "/proj/index.js")]
        (Compiler.new hostE2E optionsE2E)).state?.map
          (fun c => c.chunks.map (fun chunk => chunk.entryModule.id))
      = some ["./index.js"] :=
  ⟨rfl, rfl, rfl⟩

/-- C7 (counterexample). For the source `require(x);` the exception thrown by
`handleWebpackCompiler` is the host's `TypeError`, not an
`UnsupportedDependencyError`; and the call `require(10n)`, whose argument is a
BigInt literal with the string value `10`, does not fail at all: it is resolved
and rewritten like a string literal. -/
theorem dynamic_require_throws_type_error :
    (handleWebpackCompiler (buildModule hostDynamic optionsE2E 5) hostDynamic optionsE2E "main"
        "/proj/index.js"
        { Compiler.new hostDynamic optionsE2E with moduleCode := "require(x);" }).error?
      = some Err.typeError
    ∧ (handleWebpackCompiler (buildModule hostDynamic optionsE2E 5) hostDynamic optionsE2E "main"
        "/proj/index.js"
        { Compiler.new hostDynamic optionsE2E with moduleCode := "require(x);" }).error?
      ≠ some Err.unsupportedDependencyError
    ∧ traverseNode hostDynamic optionsE2E "/proj" [] "/proj/index.js"
        (.callExpression (.identifier "require") (.cons (.bigIntLiteral "10") .nil)) []
      = .ok (.callExpression (.identifier "__webpack_require__")
              (.cons (.stringLiteral "./10.js") .nil), ["./10.js"]) :=
  ⟨rfl, by decide, rfl⟩

/-- C8 (counterexample). Without `options.output`, `run` fires the `run` hook,
reads both source files and builds the modules before it throws, and the
exception is a `TypeError`, not a `ConfigError`. -/
theorem missing_output_fails_after_build :
    (run hostE2E optionsNoOutput 5 (Compiler.new hostE2E optionsNoOutput)).error?
      = some Err.typeError
    ∧ (run hostE2E optionsNoOutput 5 (Compiler.new hostE2E optionsNoOutput)).state?.map
          (fun c => c.trace)
      = some [Event.hookCall "run" [], Event.readFile "/proj/index.js",
              Event.readFile "./common.js"]
    ∧ (run hostE2E optionsNoOutput 5 (Compiler.new hostE2E optionsNoOutput)).state?.map
          moduleOwners
      = some [("./common.js", ["main"])] :=
  ⟨rfl, rfl, rfl⟩

/-! ### What a build changes -/

/-- Nothing changed. -/
theorem BuildFrame.refl (name : String) (c : Compiler) : BuildFrame name c c :=
  ⟨rfl, rfl, rfl, rfl, rfl, rfl, ⟨[], by simp, by simp⟩, ⟨[], by simp, by simp⟩⟩

/-- Two builds in a row. -/
theorem BuildFrame.trans {name : String} {a b c : Compiler}
    (hab : BuildFrame name a b) (hbc : BuildFrame name b c) : BuildFrame name a c := by
  obtain ⟨r1, t1, e1, c1, a1, f1, ⟨ms1, hm1, hn1⟩, ⟨ev1, ht1, hr1⟩⟩ := hab
  obtain ⟨r2, t2, e2, c2, a2, f2, ⟨ms2, hm2, hn2⟩, ⟨ev2, ht2, hr2⟩⟩ := hbc
  refine ⟨r2.trans r1, t2.trans t1, e2.trans e1, c2.trans c1, a2.trans a1, f2.trans f1,
    ⟨ms1 ++ ms2, by rw [hm2, hm1, List.append_assoc], ?_⟩,
    ⟨ev1 ++ ev2, by rw [ht2, ht1, List.append_assoc], ?_⟩⟩
  · intro m hm
    rcases List.mem_append.mp hm with h | h
    · exact hn1 m h
    · exact hn2 m h
  · intro e he
    rcases List.mem_append.mp he with h | h
    · exact hr1 e h
    · exact hr2 e h

/-- The loaders change `moduleCode` only. -/
theorem runLoaders_ok (h : Host) : ∀ (ls : List String) (c c' : Compiler) (u : Unit),
    runLoaders h ls c = .ok u c' → ∃ code, c' = { c with moduleCode := code }
  | [], c, c', u, hrun => by
    simp only [runLoaders, Outcome.ok.injEq] at hrun
    exact ⟨c.moduleCode, hrun.2 ▸ rfl⟩
  | l :: ls, c, c', u, hrun => by
    simp only [runLoaders] at hrun
    split at hrun
    · cases hrun
    · obtain ⟨code, hcode⟩ := runLoaders_ok h ls _ c' u hrun
      exact ⟨code, by rw [hcode]⟩

/-- The method `handleLoader` changes `moduleCode` only. -/
theorem handleLoaderRules_ok (h : Host) (p : String) :
    ∀ (rules : List Rule) (matched : List String) (c c' : Compiler) (u : Unit),
    handleLoaderRules h p rules matched c = .ok u c' → ∃ code, c' = { c with moduleCode := code }
  | [], _, c, c', u, hrun => by
    simp only [handleLoaderRules, Outcome.ok.injEq] at hrun
    exact ⟨c.moduleCode, hrun.2 ▸ rfl⟩
  | rule :: rules, matched, c, c', u, hrun => by
    simp only [handleLoaderRules] at hrun
    split at hrun
    · cases hrun
    · split at hrun
      · rename_i c1 hl
        obtain ⟨code1, h1⟩ := runLoaders_ok h _ c c1 _ hl
        obtain ⟨code2, h2⟩ := handleLoaderRules_ok h p rules _ c1 c' u hrun
        exact ⟨code2, by rw [h2, h1]⟩
      · cases hrun
      · cases hrun

/-- The loop over the dependencies keeps the frame when every build does. -/
theorem buildDependencies_frame (name : String) (build : String → Compiler → Outcome Module)
    (hbuild : ∀ d c m c', build d c = .ok m c' → BuildFrame name c c' ∧ m.name = [name]) :
    ∀ (deps : List String) (c c' : Compiler) (u : Unit),
    buildDependencies build deps c = .ok u c' → BuildFrame name c c'
  | [], c, c', u, hrun => by
    simp only [buildDependencies, Outcome.ok.injEq] at hrun
    exact hrun.2 ▸ BuildFrame.refl name c
  | d :: deps, c, c', u, hrun => by
    simp only [buildDependencies] at hrun
    split at hrun
    · rename_i depModule c1 hb
      obtain ⟨hf, hname⟩ := hbuild d c depModule c1 hb
      have hstep : BuildFrame name c1 { c1 with modules := c1.modules ++ [depModule] } :=
        ⟨rfl, rfl, rfl, rfl, rfl, rfl, ⟨[depModule], rfl, by simpa using hname⟩,
          ⟨[], by simp, by simp⟩⟩
      exact (hf.trans hstep).trans (buildDependencies_frame name build hbuild deps _ c' u hrun)
    · cases hrun
    · cases hrun

/-- A successful `buildModule` for the entry `name` returns a module owned by
`name` and keeps the frame. -/
theorem buildModule_frame (h : Host) (o : Options) :
    ∀ (fuel : Nat) (name p : String) (c : Compiler) (m : Module) (c' : Compiler),
    buildModule h o fuel name p c = .ok m c' → BuildFrame name c c' ∧ m.name = [name]
  | 0, _, _, _, _, _, hrun => by cases hrun
  | fuel + 1, name, p, c, m, c', hrun => by
    simp only [buildModule] at hrun
    split at hrun
    · cases hrun
    · rename_i src hread
      split at hrun
      · rename_i c2 hl
        obtain ⟨code, hcode⟩ := handleLoaderRules_ok h p o.rules [] _ c2 _ hl
        simp only [handleWebpackCompiler] at hrun
        split at hrun
        · cases hrun
        · split at hrun
          · cases hrun
          · split at hrun
            · rename_i c3 hdeps
              have hf := buildDependencies_frame name (buildModule h o fuel name)
                (fun d c m c' hb => buildModule_frame h o fuel name d c m c' hb) _ c2 c3 _ hdeps
              simp only [Outcome.ok.injEq] at hrun
              obtain ⟨hm, hc⟩ := hrun
              subst hc
              refine ⟨?_, by rw [← hm]⟩
              have h0 : BuildFrame name c c2 := by
                rw [hcode]
                exact ⟨rfl, rfl, rfl, rfl, rfl, rfl, ⟨[], by simp, by simp⟩,
                  ⟨[Event.readFile p], rfl, by simp⟩⟩
              exact h0.trans hf
            · cases hrun
            · cases hrun
      · cases hrun
      · cases hrun

/-! ### Chunks -/

/-- Filtering modules owned by `name` for another owner gives nothing. -/
theorem filter_other_owner (name other : String) (hne : other ≠ name) :
    ∀ ms : List Module, (∀ m ∈ ms, m.name = [name]) →
      ms.filter (fun m => decide (other ∈ m.name)) = []
  | [], _ => rfl
  | m :: ms, hown => by
    have hm : m.name = [name] := hown m (List.mem_cons_self _ _)
    have hrest := filter_other_owner name other hne ms
      (fun x hx => hown x (List.mem_cons_of_mem _ hx))
    simp [List.filter_cons, hm, hne, hrest]

/-- The entries are processed one by one: each adds one chunk named by its key,
and the chunks stay consistent with `this.modules`. -/
theorem buildEntryModule_chunks (h : Host) (o : Options) (fuel : Nat) :
    ∀ (entry : List (String × String)) (c c' : Compiler) (u : Unit),
    (entry.map Prod.fst).Nodup →
    (∀ chunk ∈ c.chunks, chunk.name ∉ entry.map Prod.fst) →
    ChunksConsistent c →
    c.entries = c.chunks.map (fun chunk => chunk.entryModule) →
    buildEntryModule h o fuel entry c = .ok u c' →
    c'.chunks.map (fun chunk => chunk.name)
        = c.chunks.map (fun chunk => chunk.name) ++ entry.map Prod.fst
      ∧ ChunksConsistent c'
      ∧ c'.entries = c'.chunks.map (fun chunk => chunk.entryModule)
  | [], c, c', u, _, _, hcons, hent, hrun => by
    simp only [buildEntryModule, Outcome.ok.injEq] at hrun
    obtain ⟨_, hc⟩ := hrun
    subst hc
    exact ⟨by simp, hcons, hent⟩
  | (k, path) :: rest, c, c', u, hnodup, hfresh, hcons, hent, hrun => by
    simp only [buildEntryModule] at hrun
    split at hrun
    · rename_i entryObj c1 hb
      obtain ⟨⟨_, _, he, hch, _, _, ⟨ms, hms, hown⟩, _⟩, hname⟩ :=
        buildModule_frame h o fuel k path c entryObj c1 hb
      simp only [List.map_cons, List.nodup_cons] at hnodup
      obtain ⟨hk, hnodup'⟩ := hnodup
      have ih := buildEntryModule_chunks h o fuel rest
        (buildUpChunk k entryObj { c1 with entries := c1.entries ++ [entryObj] }) c' u hnodup'
        (by
          intro chunk hchunk
          simp only [buildUpChunk, hch, List.mem_append, List.mem_singleton] at hchunk
          rcases hchunk with hold | hnew
          · intro hmem
            exact hfresh chunk hold (by simp [hmem])
          · rw [hnew]; exact hk)
        (by
          intro chunk hchunk
          simp only [buildUpChunk, hch, List.mem_append, List.mem_singleton] at hchunk
          simp only [buildUpChunk]
          rcases hchunk with hold | hnew
          · have hne : chunk.name ≠ k := by
              intro heq
              exact hfresh chunk hold (by simp [heq])
            refine ⟨?_, (hcons chunk hold).2⟩
            rw [hms, List.filter_append, filter_other_owner k chunk.name hne ms hown,
              List.append_nil]
            exact (hcons chunk hold).1
          · rw [hnew]
            exact ⟨rfl, hname⟩)
        (by simp [buildUpChunk, he, hch, hent])
        hrun
      obtain ⟨hnames, hcons', hent'⟩ := ih
      refine ⟨?_, hcons', hent'⟩
      rw [hnames]
      simp [buildUpChunk, hch]
    · cases hrun
    · cases hrun

/-- The paths read in a trace made of reads only. -/
theorem readPaths_map (ps : List String) : readPaths (ps.map Event.readFile) = ps := by
  induction ps with
  | nil => rfl
  | cons p ps ih => simp [readPaths, ih]

/-- The loop over the dependencies reads one file per module it adds: the ids
of the files read are, up to order, the ids of the modules added. -/
theorem buildDependencies_reads (h : Host) (build : String → Compiler → Outcome Module)
    (hbuild : ∀ d c m c', build d c = .ok m c' →
      c'.rootPath = c.rootPath ∧ m.id = canonicalId h c.rootPath d
      ∧ ∃ (ps : List String) (ms : List Module), c'.trace = c.trace ++ (d :: ps).map Event.readFile
          ∧ c'.modules = c.modules ++ ms
          ∧ List.Perm (ps.map (canonicalId h c.rootPath)) (ms.map (fun x => x.id))) :
    ∀ (deps : List String) (c c' : Compiler) (u : Unit),
    buildDependencies build deps c = .ok u c' →
    c'.rootPath = c.rootPath
    ∧ ∃ (ps : List String) (ms : List Module), c'.trace = c.trace ++ ps.map Event.readFile
        ∧ c'.modules = c.modules ++ ms
        ∧ List.Perm (ps.map (canonicalId h c.rootPath)) (ms.map (fun x => x.id))
  | [], c, c', u, hrun => by
    simp only [buildDependencies, Outcome.ok.injEq] at hrun
    obtain ⟨_, hc⟩ := hrun
    subst hc
    exact ⟨rfl, [], [], by simp, by simp, by simp⟩
  | d :: deps, c, c', u, hrun => by
    simp only [buildDependencies] at hrun
    split at hrun
    · rename_i depModule c1 hb
      obtain ⟨hroot1, hid, ps1, ms1, htr1, hms1, hperm1⟩ := hbuild d c depModule c1 hb
      obtain ⟨hroot2, ps2, ms2, htr2, hms2, hperm2⟩ :=
        buildDependencies_reads h build hbuild deps _ c' u hrun
      simp only at hroot2 htr2 hms2 hperm2
      refine ⟨hroot2.trans hroot1, d :: ps1 ++ ps2, ms1 ++ depModule :: ms2, ?_, ?_, ?_⟩
      · rw [htr2, htr1]; simp
      · rw [hms2, hms1]; simp
      · rw [hroot1] at hperm2
        simp only [List.map_append, List.map_cons, List.cons_append]
        rw [← hid]
        exact (List.Perm.cons _ (hperm1.append hperm2)).trans List.perm_middle.symm
    · cases hrun
    · cases hrun

/-- A successful `buildModule` reads the file at `p` and returns the module with
the canonical id of `p`, without adding it to `this.modules`; the further files
it reads are, up to order, those of the modules it adds. -/
theorem buildModule_reads (h : Host) (o : Options) :
    ∀ (fuel : Nat) (name p : String) (c : Compiler) (m : Module) (c' : Compiler),
    buildModule h o fuel name p c = .ok m c' →
    c'.rootPath = c.rootPath ∧ m.id = canonicalId h c.rootPath p
    ∧ ∃ (ps : List String) (ms : List Module), c'.trace = c.trace ++ (p :: ps).map Event.readFile
        ∧ c'.modules = c.modules ++ ms
        ∧ List.Perm (ps.map (canonicalId h c.rootPath)) (ms.map (fun x => x.id))
  | 0, _, _, _, _, _, hrun => by cases hrun
  | fuel + 1, name, p, c, m, c', hrun => by
    simp only [buildModule] at hrun
    split at hrun
    · cases hrun
    · rename_i src hread
      split at hrun
      · rename_i c2 hl
        obtain ⟨code, hcode⟩ := handleLoaderRules_ok h p o.rules [] _ c2 _ hl
        simp only [handleWebpackCompiler] at hrun
        split at hrun
        · cases hrun
        · split at hrun
          · cases hrun
          · split at hrun
            · rename_i c3 hdeps
              obtain ⟨hroot, ps, ms, htr, hms, hperm⟩ :=
                buildDependencies_reads h (buildModule h o fuel name)
                  (fun d c m c' hb => buildModule_reads h o fuel name d c m c' hb) _ c2 c3 _ hdeps
              simp only [Outcome.ok.injEq] at hrun
              obtain ⟨hm, hc⟩ := hrun
              subst hc
              have hroot2 : c2.rootPath = c.rootPath := by rw [hcode]
              have htr2 : c2.trace = c.trace ++ [Event.readFile p] := by rw [hcode]
              have hms2 : c2.modules = c.modules := by rw [hcode]
              refine ⟨hroot.trans hroot2, ?_, ps, ms, ?_, ?_, ?_⟩
              · rw [← hm, hroot2]; rfl
              · rw [htr, htr2]; simp
              · rw [hms, hms2]
              · rw [hroot2] at hperm
                exact hperm
            · cases hrun
            · cases hrun
      · cases hrun
      · cases hrun

/-- Over the entries: every file read gives one module, an entry module or a
member of `this.modules`. -/
theorem buildEntryModule_reads (h : Host) (o : Options) (fuel : Nat) :
    ∀ (entry : List (String × String)) (c c' : Compiler) (u : Unit),
    buildEntryModule h o fuel entry c = .ok u c' →
    c'.rootPath = c.rootPath
    ∧ ∃ (ps : List String) (es ms : List Module), c'.trace = c.trace ++ ps.map Event.readFile
        ∧ c'.entries = c.entries ++ es ∧ c'.modules = c.modules ++ ms
        ∧ List.Perm (ps.map (canonicalId h c.rootPath)) ((es ++ ms).map (fun x => x.id))
  | [], c, c', u, hrun => by
    simp only [buildEntryModule, Outcome.ok.injEq] at hrun
    obtain ⟨_, hc⟩ := hrun
    subst hc
    exact ⟨rfl, [], [], [], by simp, by simp, by simp, by simp⟩
  | (k, path) :: rest, c, c', u, hrun => by
    simp only [buildEntryModule] at hrun
    split at hrun
    · rename_i entryObj c1 hb
      obtain ⟨hroot1, hid, ps1, ms1, htr1, hms1, hperm1⟩ :=
        buildModule_reads h o fuel k path c entryObj c1 hb
      obtain ⟨⟨_, _, he1, _, _, _, _, _⟩, _⟩ := buildModule_frame h o fuel k path c entryObj c1 hb
      obtain ⟨hroot2, ps2, es2, ms2, htr2, hes2, hms2, hperm2⟩ :=
        buildEntryModule_reads h o fuel rest _ c' u hrun
      simp only [buildUpChunk] at hroot2 htr2 hes2 hms2 hperm2
      refine ⟨hroot2.trans hroot1, path :: ps1 ++ ps2, entryObj :: es2, ms1 ++ ms2, ?_, ?_, ?_, ?_⟩
      · rw [htr2, htr1]; simp
      · rw [hes2, he1]; simp
      · rw [hms2, hms1]; simp
      · rw [hroot1] at hperm2
        simp only [List.map_append, List.map_cons, List.cons_append] at hperm2 ⊢
        rw [← hid]
        refine List.Perm.cons _ ?_
        have hstep := hperm1.append hperm2
        refine hstep.trans ?_
        rw [← List.append_assoc, ← List.append_assoc]
        exact List.Perm.append_right _ List.perm_append_comm
    · cases hrun
    · cases hrun

/-- Every chunk added by `buildEntryModule` holds, as its entry module, the
module `buildModule` returned for the file of its entry, and, as its modules,
those of `this.modules` owned by its name at the moment `buildModule` returned. -/
theorem buildEntryModule_entryModules (h : Host) (o : Options) (fuel : Nat) :
    ∀ (entry : List (String × String)) (c c' : Compiler) (u : Unit),
    buildEntryModule h o fuel entry c = .ok u c' →
    ∀ chunk ∈ c'.chunks, chunk ∈ c.chunks
      ∨ ∃ path cBefore cAfter, (chunk.name, path) ∈ entry
          ∧ buildModule h o fuel chunk.name path cBefore = .ok chunk.entryModule cAfter
          ∧ chunk.entryModule.id = canonicalId h c.rootPath path
          ∧ chunk.modules = cAfter.modules.filter (fun m => decide (chunk.name ∈ m.name))
  | [], c, c', u, hrun => by
    simp only [buildEntryModule, Outcome.ok.injEq] at hrun
    obtain ⟨_, hc⟩ := hrun
    subst hc
    intro chunk hchunk
    exact Or.inl hchunk
  | (k, path) :: rest, c, c', u, hrun => by
    simp only [buildEntryModule] at hrun
    split at hrun
    · rename_i entryObj c1 hb
      obtain ⟨hroot1, hid, _⟩ := buildModule_reads h o fuel k path c entryObj c1 hb
      obtain ⟨⟨_, _, _, hch1, _, _, _, _⟩, _⟩ := buildModule_frame h o fuel k path c entryObj c1 hb
      have ih := buildEntryModule_entryModules h o fuel rest _ c' u hrun
      intro chunk hchunk
      rcases ih chunk hchunk with hold | ⟨path', cB, cA, hmem, hbuilt, hid', hmods⟩
      · simp only [buildUpChunk, hch1, List.mem_append, List.mem_singleton] at hold
        rcases hold with hold | hnew
        · exact Or.inl hold
        · refine Or.inr ⟨path, c, c1, ?_, ?_, ?_, ?_⟩
          · rw [hnew]; exact List.mem_cons_self _ _
          · rw [hnew]; exact hb
          · rw [hnew]; exact hid
          · rw [hnew]
      · refine Or.inr ⟨path', cB, cA, List.mem_cons_of_mem _ hmem, hbuilt, ?_, hmods⟩
        rw [hid']
        simp only [buildUpChunk, hroot1]
    · cases hrun
    · cases hrun

/-- C5 (amended). On a fresh compiler and an entry map with distinct keys, when
`buildEntryModule` completes there is exactly one chunk per entry key, named by
that key and in key order. The modules of each chunk are exactly the modules of
`this.modules` whose owning-entry list contains the key. The entry's own module
is the chunk's `entryModule`: it is the module `buildModule` returned for the
entry's file, it has the canonical id of that file and is owned by the key, and
`this.entries` lists these entry modules. It is not added to `this.modules`: the
chunk's modules are those of `this.modules` as `buildModule` left it, and every
file read gave exactly one module, so that the ids of the files read are, up to
order, the ids of `this.entries` followed by those of `this.modules`. -/
theorem chunk_membership (h : Host) (o : Options) (fuel : Nat)
    (entry : List (String × String)) (c' : Compiler)
    (hkeys : (entry.map Prod.fst).Nodup)
    (hrun : buildEntryModule h o fuel entry (Compiler.new h o) = .ok () c') :
    c'.chunks.map (fun chunk => chunk.name) = entry.map Prod.fst
    ∧ (∀ chunk ∈ c'.chunks,
        chunk.modules = c'.modules.filter (fun m => decide (chunk.name ∈ m.name))
        ∧ chunk.entryModule.name = [chunk.name]
        ∧ ∃ path cBefore cAfter, (chunk.name, path) ∈ entry
            ∧ buildModule h o fuel chunk.name path cBefore = .ok chunk.entryModule cAfter
            ∧ chunk.entryModule.id = canonicalId h c'.rootPath path
            ∧ chunk.modules = cAfter.modules.filter (fun m => decide (chunk.name ∈ m.name)))
    ∧ c'.entries = c'.chunks.map (fun chunk => chunk.entryModule)
    ∧ List.Perm ((readPaths c'.trace).map (canonicalId h c'.rootPath))
        ((c'.entries ++ c'.modules).map (fun m => m.id)) := by
  have hmain := buildEntryModule_chunks h o fuel entry (Compiler.new h o) c' () hkeys
    (by intro chunk hchunk; simp [Compiler.new] at hchunk)
    (by intro chunk hchunk; simp [Compiler.new] at hchunk)
    (by simp [Compiler.new]) hrun
  obtain ⟨hnames, hcons, hentries⟩ := hmain
  obtain ⟨hroot, ps, es, ms, htr, hes, hms, hperm⟩ :=
    buildEntryModule_reads h o fuel entry (Compiler.new h o) c' () hrun
  have hbuilt := buildEntryModule_entryModules h o fuel entry (Compiler.new h o) c' () hrun
  refine ⟨by simpa [Compiler.new] using hnames, ?_, hentries, ?_⟩
  · intro chunk hchunk
    refine ⟨(hcons chunk hchunk).1, (hcons chunk hchunk).2, ?_⟩
    rcases hbuilt chunk hchunk with hold | ⟨path, cB, cA, hmem, hb, hid, hmods⟩
    · simp [Compiler.new] at hold
    · exact ⟨path, cB, cA, hmem, hb, by rw [hroot]; exact hid, hmods⟩
  · have htrace : readPaths c'.trace = ps := by
      rw [htr]
      simp [Compiler.new, readPaths_map]
    have hentriesEq : c'.entries = es := by rw [hes]; simp [Compiler.new]
    have hmodulesEq : c'.modules = ms := by rw [hms]; simp [Compiler.new]
    rw [htrace, hentriesEq, hmodulesEq, hroot]
    exact hperm

/-- C5 (witness). The end-to-end tree: `buildEntryModule` ends in `builtE2E`,
whose one chunk `main` has the entry module `./index.js` and the modules
`[./common.js]`, while `this.modules` holds `./common.js` alone. -/
theorem chunk_membership_witness :
    buildEntryModule hostE2E optionsE2E 5 [("main", "/proj/index.js")]
        (Compiler.new hostE2E optionsE2E) = .ok () builtE2E
    ∧ chunkModuleIds builtE2E = [("main", ["./common.js"])]
    ∧ builtE2E.modules.map (fun m => m.id) = ["./common.js"]
    ∧ builtE2E.entries.map (fun m => m.id) = ["./index.js"]
    ∧ builtE2E.chunks.map (fun chunk => chunk.name) = ["main"]
    ∧ (∀ chunk ∈ builtE2E.chunks,
        chunk.modules = builtE2E.modules.filter (fun m => decide (chunk.name ∈ m.name))
        ∧ chunk.entryModule.name = [chunk.name]
        ∧ ∃ path cBefore cAfter, (chunk.name, path) ∈ [("main", "/proj/index.js")]
            ∧ buildModule hostE2E optionsE2E 5 chunk.name path cBefore
                = .ok chunk.entryModule cAfter
            ∧ chunk.entryModule.id = canonicalId hostE2E builtE2E.rootPath path
            ∧ chunk.modules = cAfter.modules.filter (fun m => decide (chunk.name ∈ m.name)))
    ∧ builtE2E.entries = builtE2E.chunks.map (fun chunk => chunk.entryModule)
    ∧ List.Perm ((readPaths builtE2E.trace).map (canonicalId hostE2E builtE2E.rootPath))
        ((builtE2E.entries ++ builtE2E.modules).map (fun m => m.id)) :=
  ⟨rfl, rfl, rfl, rfl,
    chunk_membership hostE2E optionsE2E 5 [("main", "/proj/index.js")] builtE2E (by decide) rfl⟩

/-! ### The rewrite -/

/-- Only the identifier `require` has the name `require`. -/
theorem eq_identifier_of_name (callee : Node) (hname : callee.name? = some "require") :
    callee = .identifier "require" := by
  cases callee <;> simp_all [Node.name?]

/-- The id written for a string-literal specifier is the id of its resolved file. -/
theorem visitRequire_stringLiteral (h : Host) (o : Options) (root : String)
    (mods : List Module) (p s : String) (rest : NodeList) (deps deps' : List String)
    (id : String)
    (hrun : visitRequire h o root mods p (.cons (.stringLiteral s) rest) deps = .ok (id, deps')) :
    resolvedId h o root p s = some id := by
  simp only [visitRequire, Node.value] at hrun
  unfold resolvedId
  split at hrun
  · cases hrun
  · rename_i resolved hres
    rw [hres]
    split at hrun
    · simp only [Except.ok.injEq, Prod.mk.injEq] at hrun
      exact congrArg some hrun.1
    · cases hrun

mutual
/-- A completed traversal relates the tree to its result by `Rewritten`. -/
theorem traverseNode_rewritten (h : Host) (o : Options) (root : String) (mods : List Module)
    (p : String) : ∀ (n : Node) (deps : List String) (n' : Node) (deps' : List String),
    traverseNode h o root mods p n deps = .ok (n', deps') →
    Rewritten (resolvedId h o root p) n n'
  | .callExpression callee args, deps, n', deps', hrun => by
    simp only [traverseNode] at hrun
    split at hrun
    · rename_i hreq
      have hcallee := eq_identifier_of_name callee hreq
      subst hcallee
      split at hrun
      · cases hrun
      · rename_i moduleId deps1 hv
        simp only [Except.ok.injEq, Prod.mk.injEq] at hrun
        obtain ⟨hn, _⟩ := hrun
        subst hn
        cases args with
        | nil => simp [visitRequire] at hv
        | cons a rest =>
          cases a with
          | stringLiteral s =>
            exact Rewritten.require s rest moduleId
              (visitRequire_stringLiteral h o root mods p s rest deps deps1 moduleId hv)
          | _ => exact Rewritten.requireOther _ _ (by intro s r hEq; cases hEq)
    · rename_i hreq
      split at hrun
      · cases hrun
      · rename_i callee' deps1 hc
        split at hrun
        · cases hrun
        · rename_i args' deps2 ha
          simp only [Except.ok.injEq, Prod.mk.injEq] at hrun
          obtain ⟨hn, _⟩ := hrun
          subst hn
          exact Rewritten.call callee callee' args args' hreq
            (traverseNode_rewritten h o root mods p callee deps callee' deps1 hc)
            (traverseList_rewritten h o root mods p args deps1 args' deps2 ha)
  | .other type children, deps, n', deps', hrun => by
    simp only [traverseNode] at hrun
    split at hrun
    · cases hrun
    · rename_i children' deps1 hch
      simp only [Except.ok.injEq, Prod.mk.injEq] at hrun
      obtain ⟨hn, _⟩ := hrun
      subst hn
      exact Rewritten.other type children children'
        (traverseList_rewritten h o root mods p children deps children' deps1 hch)
  | .identifier name, deps, n', deps', hrun => by
    simp only [traverseNode, Except.ok.injEq, Prod.mk.injEq] at hrun
    exact hrun.1 ▸ Rewritten.identifier name
  | .stringLiteral v, deps, n', deps', hrun => by
    simp only [traverseNode, Except.ok.injEq, Prod.mk.injEq] at hrun
    exact hrun.1 ▸ Rewritten.stringLiteral v
  | .numericLiteral r, deps, n', deps', hrun => by
    simp only [traverseNode, Except.ok.injEq, Prod.mk.injEq] at hrun
    exact hrun.1 ▸ Rewritten.numericLiteral r
  | .booleanLiteral b, deps, n', deps', hrun => by
    simp only [traverseNode, Except.ok.injEq, Prod.mk.injEq] at hrun
    exact hrun.1 ▸ Rewritten.booleanLiteral b
  | .bigIntLiteral v, deps, n', deps', hrun => by
    simp only [traverseNode, Except.ok.injEq, Prod.mk.injEq] at hrun
    exact hrun.1 ▸ Rewritten.bigIntLiteral v
/-- The same for a list of nodes. -/
theorem traverseList_rewritten (h : Host) (o : Options) (root : String) (mods : List Module)
    (p : String) : ∀ (ns : NodeList) (deps : List String) (ns' : NodeList) (deps' : List String),
    traverseList h o root mods p ns deps = .ok (ns', deps') →
    RewrittenList (resolvedId h o root p) ns ns'
  | .nil, deps, ns', deps', hrun => by
    simp only [traverseList, Except.ok.injEq, Prod.mk.injEq] at hrun
    exact hrun.1 ▸ RewrittenList.nil
  | .cons n ns, deps, ns', deps', hrun => by
    simp only [traverseList] at hrun
    split at hrun
    · cases hrun
    · rename_i n' deps1 hn
      split at hrun
      · cases hrun
      · rename_i ns1 deps2 hns
        simp only [Except.ok.injEq, Prod.mk.injEq] at hrun
        obtain ⟨hl, _⟩ := hrun
        subst hl
        exact RewrittenList.cons n n' ns ns1
          (traverseNode_rewritten h o root mods p n deps n' deps1 hn)
          (traverseList_rewritten h o root mods p ns deps1 ns1 deps2 hns)
end

/-- The traversal keeps the `name` of a node it does not rewrite. -/
theorem traverseNode_name (h : Host) (o : Options) (root : String) (mods : List Module)
    (p : String) (n : Node) (deps : List String) (n' : Node) (deps' : List String)
    (hrun : traverseNode h o root mods p n deps = .ok (n', deps')) :
    n'.name? = n.name? := by
  cases n with
  | callExpression callee args =>
    simp only [traverseNode] at hrun
    split at hrun
    · split at hrun
      · cases hrun
      · simp only [Except.ok.injEq, Prod.mk.injEq] at hrun
        rw [← hrun.1]; rfl
    · split at hrun
      · cases hrun
      · split at hrun
        · cases hrun
        · simp only [Except.ok.injEq, Prod.mk.injEq] at hrun
          rw [← hrun.1]; rfl
  | other type children =>
    simp only [traverseNode] at hrun
    split at hrun
    · cases hrun
    · simp only [Except.ok.injEq, Prod.mk.injEq] at hrun
      rw [← hrun.1]; rfl
  | _ =>
    simp only [traverseNode, Except.ok.injEq, Prod.mk.injEq] at hrun
    rw [← hrun.1]

mutual
/-- After a completed traversal no call of the identifier `require` is left. -/
theorem traverseNode_no_require (h : Host) (o : Options) (root : String) (mods : List Module)
    (p : String) : ∀ (n : Node) (deps : List String) (n' : Node) (deps' : List String),
    traverseNode h o root mods p n deps = .ok (n', deps') → containsRequire n' = false
  | .callExpression callee args, deps, n', deps', hrun => by
    simp only [traverseNode] at hrun
    split at hrun
    · split at hrun
      · cases hrun
      · simp only [Except.ok.injEq, Prod.mk.injEq] at hrun
        rw [← hrun.1]
        rfl
    · rename_i hreq
      split at hrun
      · cases hrun
      · rename_i callee' deps1 hc
        split at hrun
        · cases hrun
        · rename_i args' deps2 ha
          simp only [Except.ok.injEq, Prod.mk.injEq] at hrun
          rw [← hrun.1]
          have h1 := traverseNode_no_require h o root mods p callee deps callee' deps1 hc
          have h2 := traverseList_no_require h o root mods p args deps1 args' deps2 ha
          have h3 := traverseNode_name h o root mods p callee deps callee' deps1 hc
          simp [containsRequire, h1, h2, h3, hreq]
  | .other type children, deps, n', deps', hrun => by
    simp only [traverseNode] at hrun
    split at hrun
    · cases hrun
    · rename_i children' deps1 hch
      simp only [Except.ok.injEq, Prod.mk.injEq] at hrun
      rw [← hrun.1]
      simpa [containsRequire] using
        traverseList_no_require h o root mods p children deps children' deps1 hch
  | .identifier name, deps, n', deps', hrun => by
    simp only [traverseNode, Except.ok.injEq, Prod.mk.injEq] at hrun
    rw [← hrun.1]; rfl
  | .stringLiteral v, deps, n', deps', hrun => by
    simp only [traverseNode, Except.ok.injEq, Prod.mk.injEq] at hrun
    rw [← hrun.1]; rfl
  | .numericLiteral r, deps, n', deps', hrun => by
    simp only [traverseNode, Except.ok.injEq, Prod.mk.injEq] at hrun
    rw [← hrun.1]; rfl
  | .booleanLiteral b, deps, n', deps', hrun => by
    simp only [traverseNode, Except.ok.injEq, Prod.mk.injEq] at hrun
    rw [← hrun.1]; rfl
  | .bigIntLiteral v, deps, n', deps', hrun => by
    simp only [traverseNode, Except.ok.injEq, Prod.mk.injEq] at hrun
    rw [← hrun.1]; rfl
/-- The same for a list of nodes. -/
theorem traverseList_no_require (h : Host) (o : Options) (root : String) (mods : List Module)
    (p : String) : ∀ (ns : NodeList) (deps : List String) (ns' : NodeList) (deps' : List String),
    traverseList h o root mods p ns deps = .ok (ns', deps') → containsRequireList ns' = false
  | .nil, deps, ns', deps', hrun => by
    simp only [traverseList, Except.ok.injEq, Prod.mk.injEq] at hrun
    rw [← hrun.1]; rfl
  | .cons n ns, deps, ns', deps', hrun => by
    simp only [traverseList] at hrun
    split at hrun
    · cases hrun
    · rename_i n' deps1 hn
      split at hrun
      · cases hrun
      · rename_i ns1 deps2 hns
        simp only [Except.ok.injEq, Prod.mk.injEq] at hrun
        rw [← hrun.1]
        have h1 := traverseNode_no_require h o root mods p n deps n' deps1 hn
        have h2 := traverseList_no_require h o root mods p ns deps1 ns1 deps2 hns
        simp [containsRequireList, h1, h2]
end

mutual
/-- A tree without a call of the identifier `require` is returned as it is. -/
theorem traverseNode_unchanged (h : Host) (o : Options) (root : String) (mods : List Module)
    (p : String) : ∀ (n : Node) (deps : List String),
    containsRequire n = false → traverseNode h o root mods p n deps = .ok (n, deps)
  | .callExpression callee args, deps, hfree => by
    simp only [containsRequire, Bool.or_eq_false_iff, decide_eq_false_iff_not] at hfree
    obtain ⟨⟨hreq, hc⟩, ha⟩ := hfree
    simp only [traverseNode, hreq, if_false,
      traverseNode_unchanged h o root mods p callee deps hc,
      traverseList_unchanged h o root mods p args deps ha]
  | .other type children, deps, hfree => by
    simp only [containsRequire] at hfree
    simp only [traverseNode, traverseList_unchanged h o root mods p children deps hfree]
  | .identifier name, deps, _ => by simp only [traverseNode]
  | .stringLiteral v, deps, _ => by simp only [traverseNode]
  | .numericLiteral r, deps, _ => by simp only [traverseNode]
  | .booleanLiteral b, deps, _ => by simp only [traverseNode]
  | .bigIntLiteral v, deps, _ => by simp only [traverseNode]
/-- The same for a list of nodes. -/
theorem traverseList_unchanged (h : Host) (o : Options) (root : String) (mods : List Module)
    (p : String) : ∀ (ns : NodeList) (deps : List String),
    containsRequireList ns = false → traverseList h o root mods p ns deps = .ok (ns, deps)
  | .nil, deps, _ => by simp only [traverseList]
  | .cons n ns, deps, hfree => by
    simp only [containsRequireList, Bool.or_eq_false_iff] at hfree
    simp only [traverseList, traverseNode_unchanged h o root mods p n deps hfree.1,
      traverseList_unchanged h o root mods p ns deps hfree.2]
end

/-- C4. Whenever the traversal of `handleWebpackCompiler` completes on a tree,
the result is the tree rewritten as specified: every call of the identifier
`require` with a string-literal first argument has become a call of
`__webpack_require__` with exactly one argument, the literal `"./"` followed by
the POSIX path of the resolved file relative to `rootPath`, and every call whose
callee is not the identifier `require` kept its shape (`Rewritten`); no call of
`require` is left; and a tree without calls of `require` is unchanged. -/
theorem rewrite_correct (h : Host) (o : Options) (root : String) (mods : List Module)
    (p : String) (ast ast' : Node) (deps deps' : List String)
    (hrun : traverseNode h o root mods p ast deps = .ok (ast', deps')) :
    Rewritten (resolvedId h o root p) ast ast'
    ∧ containsRequire ast' = false
    ∧ (containsRequire ast = false → ast' = ast ∧ deps' = deps) := by
  refine ⟨traverseNode_rewritten h o root mods p ast deps ast' deps' hrun,
    traverseNode_no_require h o root mods p ast deps ast' deps' hrun, ?_⟩
  intro hfree
  have hsame := traverseNode_unchanged h o root mods p ast deps hfree
  rw [hsame] at hrun
  simp only [Except.ok.injEq, Prod.mk.injEq] at hrun
  exact ⟨hrun.1.symm, hrun.2.symm⟩

/-- C4 (witness). The end-to-end `index.js`: `require("./common")` becomes
`__webpack_require__("./common.js")` and `console.log(c)` stays. -/
theorem rewrite_correct_witness :
    traverseNode hostE2E optionsE2E "/proj" [] "/proj/index.js" astIndex []
        = .ok (astIndexRewritten, ["./common.js"])
    ∧ Rewritten (resolvedId hostE2E optionsE2E "/proj" "/proj/index.js") astIndex
        astIndexRewritten
    ∧ containsRequire astIndexRewritten = false
    ∧ (containsRequire astIndex = false →
        astIndexRewritten = astIndex ∧ ["./common.js"] = ([] : List String)) :=
  ⟨rfl, rewrite_correct hostE2E optionsE2E "/proj" [] "/proj/index.js" astIndex
    astIndexRewritten [] ["./common.js"] rfl⟩

/-! ### Dynamic specifiers -/

/-- The resolver fails only with a `ResolutionError` naming the specifier and
the requesting directory. -/
theorem tryExtensions_error (h : Host) (modulePath : String) (exts : List String)
    (origin ctx : String) (e : Err)
    (hrun : tryExtensions h modulePath exts origin ctx = .error e) :
    e = .resolutionError origin ctx := by
  unfold tryExtensions at hrun
  split at hrun
  · cases hrun
  · split at hrun
    · cases hrun
    · split at hrun
      · cases hrun
      · simp only [Except.error.injEq] at hrun
        exact hrun.symm

/-- The visitor throws a `TypeError` on a dynamic `require` call, whatever the
host, the options and the modules built so far. -/
theorem visitRequire_dynamic (h : Host) (o : Options) (root : String) (mods : List Module)
    (p : String) (args : NodeList) (deps : List String) (hdyn : dynamicArgs args = true) :
    visitRequire h o root mods p args deps = .error .typeError := by
  cases args with
  | nil => rfl
  | cons a rest =>
    simp only [dynamicArgs, requireSpecifier?] at hdyn
    cases hv : a.value with
    | str s => rw [hv] at hdyn; simp at hdyn
    | undefined => simp only [visitRequire, hv]
    | num r => simp only [visitRequire, hv]
    | bool b => simp only [visitRequire, hv]

/-- The visitor throws a `TypeError`, or the `ResolutionError` of its specifier
when that does not resolve. -/
theorem visitRequire_error (h : Host) (o : Options) (root : String) (mods : List Module)
    (p : String) (args : NodeList) (deps : List String) (e : Err)
    (hrun : visitRequire h o root mods p args deps = .error e) :
    e = .typeError
    ∨ ∃ s, requireSpecifier? args = some s ∧ resolvedId h o root p s = none
        ∧ e = .resolutionError s (toUnixPath (pathDirname p)) := by
  cases args with
  | nil =>
    simp only [visitRequire, Except.error.injEq] at hrun
    exact Or.inl hrun.symm
  | cons a rest =>
    cases hv : a.value with
    | str s =>
      simp only [visitRequire, hv] at hrun
      split at hrun
      · rename_i e' hres
        simp only [Except.error.injEq] at hrun
        have hkind := tryExtensions_error h _ _ _ _ e' hres
        refine Or.inr ⟨s, by simp [requireSpecifier?, hv], ?_, ?_⟩
        · simp only [resolvedId, hres]
        · rw [← hrun, hkind]
      · split at hrun
        · cases hrun
        · simp only [Except.error.injEq] at hrun
          exact Or.inl hrun.symm
    | undefined =>
      simp only [visitRequire, hv, Except.error.injEq] at hrun
      exact Or.inl hrun.symm
    | num r =>
      simp only [visitRequire, hv, Except.error.injEq] at hrun
      exact Or.inl hrun.symm
    | bool b =>
      simp only [visitRequire, hv, Except.error.injEq] at hrun
      exact Or.inl hrun.symm

mutual
/-- A tree in which the traversal meets no `require` call has none. -/
theorem firstRequire_none (n : Node) (hnone : firstRequire? n = none) :
    containsRequire n = false := by
  match n with
  | .callExpression callee args =>
    simp only [firstRequire?] at hnone
    split at hnone
    · cases hnone
    · rename_i hreq
      split at hnone
      · cases hnone
      · rename_i hcallee
        simp [containsRequire, hreq, firstRequire_none callee hcallee,
          firstRequireList_none args hnone]
  | .other type children =>
    simp only [firstRequire?] at hnone
    simp [containsRequire, firstRequireList_none children hnone]
  | .identifier _ => rfl
  | .stringLiteral _ => rfl
  | .numericLiteral _ => rfl
  | .booleanLiteral _ => rfl
  | .bigIntLiteral _ => rfl
/-- The same over a list of nodes. -/
theorem firstRequireList_none (ns : NodeList) (hnone : firstRequireList? ns = none) :
    containsRequireList ns = false := by
  match ns with
  | .nil => rfl
  | .cons n rest =>
    simp only [firstRequireList?] at hnone
    split at hnone
    · cases hnone
    · rename_i hn
      simp [containsRequireList, firstRequire_none n hn, firstRequireList_none rest hnone]
end

mutual
/-- When the first `require` call the traversal meets is dynamic, the traversal
throws a `TypeError`: the error passes through every enclosing node. -/
theorem traverseNode_first_dynamic (h : Host) (o : Options) (root : String)
    (mods : List Module) (p : String) : ∀ (n : Node) (deps : List String) (args : NodeList),
    firstRequire? n = some args → dynamicArgs args = true →
    traverseNode h o root mods p n deps = .error .typeError
  | .callExpression callee cargs, deps, args, hfirst, hdyn => by
    simp only [firstRequire?] at hfirst
    split at hfirst
    · rename_i hreq
      simp only [Option.some.injEq] at hfirst
      subst hfirst
      simp only [traverseNode, hreq, if_true,
        visitRequire_dynamic h o root mods p cargs deps hdyn]
    · rename_i hreq
      split at hfirst
      · rename_i found hcallee
        simp only [Option.some.injEq] at hfirst
        subst hfirst
        simp only [traverseNode, hreq, if_false,
          traverseNode_first_dynamic h o root mods p callee deps found hcallee hdyn]
      · rename_i hcallee
        simp only [traverseNode, hreq, if_false,
          traverseNode_unchanged h o root mods p callee deps (firstRequire_none callee hcallee),
          traverseList_first_dynamic h o root mods p cargs deps args hfirst hdyn]
  | .other type children, deps, args, hfirst, hdyn => by
    simp only [firstRequire?] at hfirst
    simp only [traverseNode,
      traverseList_first_dynamic h o root mods p children deps args hfirst hdyn]
  | .identifier _, _, _, hfirst, _ => by simp [firstRequire?] at hfirst
  | .stringLiteral _, _, _, hfirst, _ => by simp [firstRequire?] at hfirst
  | .numericLiteral _, _, _, hfirst, _ => by simp [firstRequire?] at hfirst
  | .booleanLiteral _, _, _, hfirst, _ => by simp [firstRequire?] at hfirst
  | .bigIntLiteral _, _, _, hfirst, _ => by simp [firstRequire?] at hfirst
/-- The same over a list of nodes. -/
theorem traverseList_first_dynamic (h : Host) (o : Options) (root : String)
    (mods : List Module) (p : String) : ∀ (ns : NodeList) (deps : List String) (args : NodeList),
    firstRequireList? ns = some args → dynamicArgs args = true →
    traverseList h o root mods p ns deps = .error .typeError
  | .nil, _, _, hfirst, _ => by simp [firstRequireList?] at hfirst
  | .cons n rest, deps, args, hfirst, hdyn => by
    simp only [firstRequireList?] at hfirst
    split at hfirst
    · rename_i found hn
      simp only [Option.some.injEq] at hfirst
      subst hfirst
      simp only [traverseList, traverseNode_first_dynamic h o root mods p n deps found hn hdyn]
    · rename_i hn
      simp only [traverseList,
        traverseNode_unchanged h o root mods p n deps (firstRequire_none n hn),
        traverseList_first_dynamic h o root mods p rest deps args hfirst hdyn]
end

mutual
/-- With a dynamic `require` call on its way the traversal does not complete. -/
theorem traverseNode_visits_dynamic (h : Host) (o : Options) (root : String)
    (mods : List Module) (p : String) : ∀ (n : Node) (deps : List String),
    visitsDynamicRequire n = true → ∃ e, traverseNode h o root mods p n deps = .error e
  | .callExpression callee args, deps, hvis => by
    simp only [visitsDynamicRequire] at hvis
    split at hvis
    · rename_i hreq
      exact ⟨.typeError, by
        simp only [traverseNode, hreq, if_true,
          visitRequire_dynamic h o root mods p args deps hvis]⟩
    · rename_i hreq
      cases hc : traverseNode h o root mods p callee deps with
      | error e => exact ⟨e, by simp only [traverseNode, hreq, if_false, hc]⟩
      | ok res =>
        obtain ⟨callee', deps1⟩ := res
        rcases Bool.or_eq_true _ _ |>.mp hvis with hcal | hargs
        · obtain ⟨e, he⟩ := traverseNode_visits_dynamic h o root mods p callee deps hcal
          rw [he] at hc
          cases hc
        · obtain ⟨e, he⟩ := traverseList_visits_dynamic h o root mods p args deps1 hargs
          exact ⟨e, by simp only [traverseNode, hreq, if_false, hc, he]⟩
  | .other type children, deps, hvis => by
    simp only [visitsDynamicRequire] at hvis
    obtain ⟨e, he⟩ := traverseList_visits_dynamic h o root mods p children deps hvis
    exact ⟨e, by simp only [traverseNode, he]⟩
  | .identifier _, _, hvis => by simp [visitsDynamicRequire] at hvis
  | .stringLiteral _, _, hvis => by simp [visitsDynamicRequire] at hvis
  | .numericLiteral _, _, hvis => by simp [visitsDynamicRequire] at hvis
  | .booleanLiteral _, _, hvis => by simp [visitsDynamicRequire] at hvis
  | .bigIntLiteral _, _, hvis => by simp [visitsDynamicRequire] at hvis
/-- The same over a list of nodes. -/
theorem traverseList_visits_dynamic (h : Host) (o : Options) (root : String)
    (mods : List Module) (p : String) : ∀ (ns : NodeList) (deps : List String),
    visitsDynamicRequireList ns = true → ∃ e, traverseList h o root mods p ns deps = .error e
  | .nil, _, hvis => by simp [visitsDynamicRequireList] at hvis
  | .cons n rest, deps, hvis => by
    simp only [visitsDynamicRequireList] at hvis
    cases hn : traverseNode h o root mods p n deps with
    | error e => exact ⟨e, by simp only [traverseList, hn]⟩
    | ok res =>
      obtain ⟨n', deps1⟩ := res
      rcases Bool.or_eq_true _ _ |>.mp hvis with hhead | htail
      · obtain ⟨e, he⟩ := traverseNode_visits_dynamic h o root mods p n deps hhead
        rw [he] at hn
        cases hn
      · obtain ⟨e, he⟩ := traverseList_visits_dynamic h o root mods p rest deps1 htail
        exact ⟨e, by simp only [traverseList, hn, he]⟩
end

mutual
/-- The traversal throws nothing but a `TypeError` or the `ResolutionError` of a
specifier on its way that does not resolve. -/
theorem traverseNode_error_kind (h : Host) (o : Options) (root : String)
    (mods : List Module) (p : String) : ∀ (n : Node) (deps : List String) (e : Err),
    traverseNode h o root mods p n deps = .error e →
    e = .typeError
    ∨ ∃ s ∈ visitedSpecifiers n, resolvedId h o root p s = none
        ∧ e = .resolutionError s (toUnixPath (pathDirname p))
  | .callExpression callee args, deps, e, hrun => by
    simp only [traverseNode] at hrun
    split at hrun
    · rename_i hreq
      split at hrun
      · rename_i e' hv
        simp only [Except.error.injEq] at hrun
        subst hrun
        rcases visitRequire_error h o root mods p args deps e' hv with hty | ⟨s, hs, hres, hkind⟩
        · exact Or.inl hty
        · exact Or.inr ⟨s, by simp [visitedSpecifiers, hreq, hs], hres, hkind⟩
      · cases hrun
    · rename_i hreq
      split at hrun
      · rename_i e' hc
        simp only [Except.error.injEq] at hrun
        subst hrun
        rcases traverseNode_error_kind h o root mods p callee deps e' hc with
          hty | ⟨s, hs, hres, hkind⟩
        · exact Or.inl hty
        · exact Or.inr ⟨s, by simp [visitedSpecifiers, hreq, hs], hres, hkind⟩
      · rename_i callee' deps1 hc
        split at hrun
        · rename_i e' ha
          simp only [Except.error.injEq] at hrun
          subst hrun
          rcases traverseList_error_kind h o root mods p args deps1 e' ha with
            hty | ⟨s, hs, hres, hkind⟩
          · exact Or.inl hty
          · exact Or.inr ⟨s, by simp [visitedSpecifiers, hreq, hs], hres, hkind⟩
        · cases hrun
  | .other type children, deps, e, hrun => by
    simp only [traverseNode] at hrun
    split at hrun
    · rename_i e' hch
      simp only [Except.error.injEq] at hrun
      subst hrun
      rcases traverseList_error_kind h o root mods p children deps e' hch with
        hty | ⟨s, hs, hres, hkind⟩
      · exact Or.inl hty
      · exact Or.inr ⟨s, by simpa [visitedSpecifiers] using hs, hres, hkind⟩
    · cases hrun
  | .identifier _, _, _, hrun => by simp [traverseNode] at hrun
  | .stringLiteral _, _, _, hrun => by simp [traverseNode] at hrun
  | .numericLiteral _, _, _, hrun => by simp [traverseNode] at hrun
  | .booleanLiteral _, _, _, hrun => by simp [traverseNode] at hrun
  | .bigIntLiteral _, _, _, hrun => by simp [traverseNode] at hrun
/-- The same over a list of nodes. -/
theorem traverseList_error_kind (h : Host) (o : Options) (root : String)
    (mods : List Module) (p : String) : ∀ (ns : NodeList) (deps : List String) (e : Err),
    traverseList h o root mods p ns deps = .error e →
    e = .typeError
    ∨ ∃ s ∈ visitedSpecifiersList ns, resolvedId h o root p s = none
        ∧ e = .resolutionError s (toUnixPath (pathDirname p))
  | .nil, _, _, hrun => by simp [traverseList] at hrun
  | .cons n rest, deps, e, hrun => by
    simp only [traverseList] at hrun
    split at hrun
    · rename_i e' hn
      simp only [Except.error.injEq] at hrun
      subst hrun
      rcases traverseNode_error_kind h o root mods p n deps e' hn with
        hty | ⟨s, hs, hres, hkind⟩
      · exact Or.inl hty
      · exact Or.inr ⟨s, by simp [visitedSpecifiersList, hs], hres, hkind⟩
    · rename_i n' deps1 hn
      split at hrun
      · rename_i e' hrest
        simp only [Except.error.injEq] at hrun
        subst hrun
        rcases traverseList_error_kind h o root mods p rest deps1 e' hrest with
          hty | ⟨s, hs, hres, hkind⟩
        · exact Or.inl hty
        · exact Or.inr ⟨s, by simp [visitedSpecifiersList, hs], hres, hkind⟩
      · cases hrun
end

/-- An error of the traversal is thrown by `handleWebpackCompiler` as it is,
with the compiler unchanged and no dependency built. -/
theorem handleWebpackCompiler_throws (build : String → String → Compiler → Outcome Module)
    (h : Host) (o : Options) (name p : String) (c : Compiler) (ast : Node) (e : Err)
    (hparse : h.parse c.moduleCode = some ast)
    (htrav : traverseNode h o c.rootPath c.modules p ast [] = .error e) :
    handleWebpackCompiler build h o name p c = .throw e c := by
  simp only [handleWebpackCompiler, hparse, htrav]

/-- C7 (amended). Let the code of a module parse to `ast`. (1) When the first
call of the identifier `require` the traversal meets has no argument, or a first
argument that carries no string `value` (an identifier, a template literal, any
expression, a number, boolean or `null` literal), `handleWebpackCompiler` throws
the host's `TypeError`, whatever the file system holds (the resolver is not
consulted), with the compiler unchanged and nothing built. (2) When such a call
is anywhere on the traversal's way, `handleWebpackCompiler` throws, with the
compiler unchanged: a `TypeError`, or the `ResolutionError` of a string
specifier of the same module that does not resolve; never an
`UnsupportedDependencyError`. (3) A BigInt literal argument carries a string
value and is handled exactly like the string literal of its digits. (4) The
arguments after the first are discarded unvisited: the traversal of a `require`
call does not depend on them. -/
theorem dynamic_require_type_error (h : Host) (o : Options)
    (build : String → String → Compiler → Outcome Module) (name p : String)
    (c : Compiler) (ast : Node) (hparse : h.parse c.moduleCode = some ast) :
    (∀ args, firstRequire? ast = some args → dynamicArgs args = true →
        handleWebpackCompiler build h o name p c = .throw .typeError c)
    ∧ (visitsDynamicRequire ast = true →
        ∃ e, handleWebpackCompiler build h o name p c = .throw e c
          ∧ e ≠ .unsupportedDependencyError
          ∧ (e = .typeError
            ∨ ∃ s ∈ visitedSpecifiers ast, resolvedId h o c.rootPath p s = none
                ∧ e = .resolutionError s (toUnixPath (pathDirname p))))
    ∧ (∀ v rest deps,
        traverseNode h o c.rootPath c.modules p
            (.callExpression (.identifier "require") (.cons (.bigIntLiteral v) rest)) deps
          = traverseNode h o c.rootPath c.modules p
            (.callExpression (.identifier "require") (.cons (.stringLiteral v) rest)) deps)
    ∧ (∀ a rest deps,
        traverseNode h o c.rootPath c.modules p
            (.callExpression (.identifier "require") (.cons a rest)) deps
          = traverseNode h o c.rootPath c.modules p
            (.callExpression (.identifier "require") (.cons a .nil)) deps) := by
  refine ⟨?_, ?_, ?_, ?_⟩
  · intro args hfirst hdyn
    exact handleWebpackCompiler_throws build h o name p c ast _ hparse
      (traverseNode_first_dynamic h o c.rootPath c.modules p ast [] args hfirst hdyn)
  · intro hvis
    obtain ⟨e, he⟩ := traverseNode_visits_dynamic h o c.rootPath c.modules p ast [] hvis
    have hkind := traverseNode_error_kind h o c.rootPath c.modules p ast [] e he
    refine ⟨e, handleWebpackCompiler_throws build h o name p c ast e hparse he, ?_, hkind⟩
    rcases hkind with hty | ⟨s, _, _, hres⟩
    · rw [hty]; intro hEq; cases hEq
    · rw [hres]; intro hEq; cases hEq
  · intro v rest deps
    simp only [traverseNode, visitRequire, Node.value, Node.name?, if_true]
  · intro a rest deps
    simp only [traverseNode, visitRequire, Node.name?, if_true]

/-- C7 (witness). The module `require(x);`: its tree is a program holding a
statement holding the call, whose argument is an identifier, and
`handleWebpackCompiler` throws a `TypeError` with the compiler unchanged. -/
theorem dynamic_require_type_error_witness :
    hostDynamic.parse "require(x);" = some astDynamic
    ∧ firstRequire? astDynamic = some (.cons (.identifier "x") .nil)
    ∧ dynamicArgs (.cons (.identifier "x") .nil) = true
    ∧ handleWebpackCompiler (buildModule hostDynamic optionsE2E 5) hostDynamic optionsE2E
        "main" "/proj/index.js"
        { Compiler.new hostDynamic optionsE2E with moduleCode := "require(x);" }
      = .throw .typeError
        { Compiler.new hostDynamic optionsE2E with moduleCode := "require(x);" } :=
  ⟨rfl, rfl, rfl,
    (dynamic_require_type_error hostDynamic optionsE2E (buildModule hostDynamic optionsE2E 5)
      "main" "/proj/index.js"
      { Compiler.new hostDynamic optionsE2E with moduleCode := "require(x);" } astDynamic rfl).1
      (.cons (.identifier "x") .nil) rfl rfl⟩

/-! ### The phases of `run` -/

/-- The entries only add reads to the trace and leave the listeners alone. -/
theorem buildEntryModule_trace (h : Host) (o : Options) (fuel : Nat) :
    ∀ (entry : List (String × String)) (c c' : Compiler) (u : Unit),
    buildEntryModule h o fuel entry c = .ok u c' →
    c'.taps = c.taps ∧ c'.assets = c.assets
      ∧ ∃ evs, c'.trace = c.trace ++ evs ∧ ∀ e ∈ evs, ∃ p, e = Event.readFile p
  | [], c, c', u, hrun => by
    simp only [buildEntryModule, Outcome.ok.injEq] at hrun
    obtain ⟨_, hc⟩ := hrun
    subst hc
    exact ⟨rfl, rfl, [], by simp, by simp⟩
  | (k, path) :: rest, c, c', u, hrun => by
    simp only [buildEntryModule] at hrun
    split at hrun
    · rename_i entryObj c1 hb
      obtain ⟨⟨_, ht, _, _, ha, _, _, ⟨ev1, htr1, hr1⟩⟩, _⟩ :=
        buildModule_frame h o fuel k path c entryObj c1 hb
      obtain ⟨ht2, ha2, ev2, htr2, hr2⟩ := buildEntryModule_trace h o fuel rest _ c' u hrun
      refine ⟨ht2.trans (by simp [buildUpChunk, ht]), ha2.trans (by simp [buildUpChunk, ha]),
        ev1 ++ ev2, ?_, ?_⟩
      · rw [htr2]
        simp [buildUpChunk, htr1]
      · intro e he
        rcases List.mem_append.mp he with hmem | hmem
        · exact hr1 e hmem
        · exact hr2 e hmem
    · cases hrun
    · cases hrun

/-- The asset loop returns or throws a `TypeError`; either way it only adds
`assetComputed` steps to the trace and keeps what was built. -/
theorem computeAssets_frame (h : Host) (o : Options) :
    ∀ (chunks : List Chunk) (c : Compiler),
    ∃ c', (computeAssets h o chunks c = .ok () c' ∨ computeAssets h o chunks c = .throw .typeError c')
      ∧ c'.taps = c.taps ∧ c'.entries = c.entries ∧ c'.modules = c.modules
      ∧ c'.chunks = c.chunks
      ∧ ∃ evs, c'.trace = c.trace ++ evs ∧ ∀ e ∈ evs, ∃ f, e = Event.assetComputed f
  | [], c => ⟨c, Or.inl rfl, rfl, rfl, rfl, rfl, [], by simp, by simp⟩
  | chunk :: rest, c => by
    cases hout : o.output with
    | none =>
      exact ⟨c, Or.inr (by simp [computeAssets, hout]), rfl, rfl, rfl, rfl, [], by simp, by simp⟩
    | some output =>
      cases hname : output.filename with
      | none =>
        exact ⟨c, Or.inr (by simp [computeAssets, hout, hname]), rfl, rfl, rfl, rfl, [],
          by simp, by simp⟩
      | some filename =>
        cases hset : setAssetProperty c.assets (stringReplace filename "[name]" chunk.name)
            (h.getSourceCode chunk) with
        | none =>
          exact ⟨c, Or.inr (by simp [computeAssets, hout, hname, hset]), rfl, rfl, rfl, rfl, [],
            by simp, by simp⟩
        | some assets =>
          obtain ⟨c', hres, ht, he, hm, hch, evs, htr, hev⟩ := computeAssets_frame h o rest
            { c with
              assets := assets
              trace := c.trace ++
                [Event.assetComputed (stringReplace filename "[name]" chunk.name)] }
          refine ⟨c', ?_, ht, he, hm, hch,
            Event.assetComputed (stringReplace filename "[name]" chunk.name) :: evs, ?_, ?_⟩
          · simpa [computeAssets, hout, hname, hset] using hres
          · rw [htr]; simp
          · intro e hmem
            rcases List.mem_cons.mp hmem with hhead | htail
            · exact ⟨_, hhead⟩
            · exact hev e htail

/-- With a chunk to name and no `output` or no `output.filename`, the asset loop
throws at once. -/
theorem computeAssets_missing (h : Host) (o : Options) (chunks : List Chunk) (c : Compiler)
    (hchunks : chunks ≠ [])
    (hmiss : o.output = none ∨ ∃ out, o.output = some out ∧ out.filename = none) :
    computeAssets h o chunks c = .throw .typeError c := by
  cases chunks with
  | nil => exact absurd rfl hchunks
  | cons chunk rest =>
    rcases hmiss with hnone | ⟨out, hsome, hname⟩
    · simp [computeAssets, hnone]
    · simp [computeAssets, hsome, hname]

/-- The write loop writes every asset, in order, and nothing else. -/
theorem writeAssets_ok (h : Host) (outputPath : String) (dirs : List String) :
    ∀ (assets : List (String × String)) (c c' : Compiler) (u : Unit),
    writeAssets h outputPath dirs assets c = .ok u c' →
    c'.taps = c.taps ∧ c'.assets = c.assets
      ∧ c'.trace = c.trace
          ++ assets.map (fun a => Event.writeFile (pathJoin outputPath a.1) a.2)
  | [], c, c', u, hrun => by
    simp only [writeAssets, Outcome.ok.injEq] at hrun
    obtain ⟨_, hc⟩ := hrun
    subst hc
    exact ⟨rfl, rfl, by simp⟩
  | (filename, content) :: rest, c, c', u, hrun => by
    simp only [writeAssets] at hrun
    split at hrun
    · obtain ⟨ht, ha, htr⟩ := writeAssets_ok h outputPath dirs rest _ c' u hrun
      exact ⟨ht, ha, by rw [htr]; simp⟩
    · cases hrun

/-- Steps that are not hook calls contribute no hook name. -/
theorem hookCalls_eq_nil : ∀ (evs : List Event),
    (∀ e ∈ evs, ∀ hook ls, e ≠ Event.hookCall hook ls) → hookCalls evs = []
  | [], _ => rfl
  | e :: evs, hne => by
    have hrest := hookCalls_eq_nil evs (fun x hx => hne x (List.mem_cons_of_mem _ hx))
    cases e with
    | hookCall hook ls => exact absurd rfl (hne _ (List.mem_cons_self _ _) hook ls)
    | _ => simpa [hookCalls] using hrest

/-- The hook names of a concatenation. -/
theorem hookCalls_append : ∀ (a b : List Event), hookCalls (a ++ b) = hookCalls a ++ hookCalls b
  | [], b => rfl
  | e :: a, b => by
    have hrest := hookCalls_append a b
    cases e <;> simp [hookCalls, hrest]

/-- The method `getEntry` does not change the compiler. -/
theorem getEntry_ok (o : Options) (c c' : Compiler) (entry : List (String × String))
    (hrun : getEntry o c = .ok entry c') : c' = c := by
  unfold getEntry at hrun
  cases hentry : o.entry with
  | missing => simp [hentry] at hrun
  | single path =>
    simp only [hentry, Outcome.ok.injEq] at hrun
    exact hrun.2.symm
  | map entries =>
    simp only [hentry, Outcome.ok.injEq] at hrun
    exact hrun.2.symm

/-- C8 (amended). The method `run` validates nothing up front: it always fires
the `run` hook first. Without `options.entry` it then throws a `TypeError` with
nothing read and nothing built. Without `options.output`, or without its `path`,
or without its `filename` while there is a chunk, and with entries that build,
it throws a `TypeError` only in `exportFile`: everything built is in the state
reached, and after the build only assets were computed and the `emit` hook
possibly fired. Without `options.output` the state reached is exactly the built
one when there is a chunk, and the built one after the `emit` hook when there
is none. -/
theorem run_validates_nothing (h : Host) (o : Options) (fuel : Nat) (c : Compiler) :
    (o.entry = .missing → run h o fuel c = .throw .typeError (callHook "run" c))
    ∧ (∀ entry c2 c3, getEntry o (callHook "run" c) = .ok entry c2 →
        buildEntryModule h o fuel entry c2 = .ok () c3 → OutputMissing o c3.chunks →
        ∃ c', run h o fuel c = .throw .typeError c'
          ∧ c'.entries = c3.entries ∧ c'.modules = c3.modules ∧ c'.chunks = c3.chunks
          ∧ (∃ evs, c'.trace = c3.trace ++ evs
              ∧ ∀ e ∈ evs, (∃ f, e = Event.assetComputed f)
                  ∨ e = Event.hookCall "emit" (listenersOf c3.taps "emit"))
          ∧ (o.output = none →
              c' = if c3.chunks = [] then callHook "emit" c3 else c3)) := by
  constructor
  · intro hentry
    simp [run, getEntry, hentry]
  · intro entry c2 c3 hg hb hmiss
    obtain ⟨c4, hres, ht, he, hm, hch, evs, htr, hev⟩ := computeAssets_frame h o c3.chunks c3
    rcases hres with hok | hthrow
    · have hemit : run h o fuel c = .throw .typeError (callHook "emit" c4) := by
        simp only [run, hg, hb, exportFile, hok]
        rcases hmiss with hnone | ⟨out, hsome, hpath | ⟨hname, hchunks⟩⟩
        · simp [hnone]
        · simp [hsome, hpath]
        · rw [computeAssets_missing h o c3.chunks c3 hchunks (Or.inr ⟨out, hsome, hname⟩)] at hok
          cases hok
      refine ⟨callHook "emit" c4, hemit, he, hm, hch,
        ⟨evs ++ [Event.hookCall "emit" (listenersOf c3.taps "emit")], ?_, ?_⟩, ?_⟩
      · simp [callHook, htr, ht]
      · intro e hmem
        rcases List.mem_append.mp hmem with hl | hr
        · exact Or.inl (hev e hl)
        · exact Or.inr (List.mem_singleton.mp hr)
      · intro hnone
        by_cases hchunks : c3.chunks = []
        · rw [hchunks] at hok
          simp only [computeAssets, Outcome.ok.injEq, true_and] at hok
          rw [if_pos hchunks, hok]
        · rw [computeAssets_missing h o c3.chunks c3 hchunks (Or.inl hnone)] at hok
          cases hok
    · refine ⟨c4, ?_, he, hm, hch, ⟨evs, htr, fun e hmem => Or.inl (hev e hmem)⟩, ?_⟩
      · simp only [run, hg, hb, exportFile, hthrow]
      · intro hnone
        by_cases hchunks : c3.chunks = []
        · rw [hchunks] at hthrow
          simp [computeAssets] at hthrow
        · rw [computeAssets_missing h o c3.chunks c3 hchunks (Or.inl hnone)] at hthrow
          simp only [Outcome.throw.injEq, true_and] at hthrow
          rw [if_neg hchunks, hthrow]

/-- C8 (witness). The end-to-end options without `entry`, and without `output`. -/
theorem run_validates_nothing_witness :
    run hostE2E optionsNoEntry 5 (Compiler.new hostE2E optionsNoEntry)
      = .throw .typeError (callHook "run" (Compiler.new hostE2E optionsNoEntry))
    ∧ ∃ c', run hostE2E optionsNoOutput 5 (Compiler.new hostE2E optionsNoOutput)
          = .throw .typeError c'
        ∧ c'.modules.map (fun m => m.id) = ["./common.js"] := by
  refine ⟨(run_validates_nothing hostE2E optionsNoEntry 5 _).1 rfl, ?_⟩
  obtain ⟨c', hrun, _, hm, _⟩ :=
    (run_validates_nothing hostE2E optionsNoOutput 5 (Compiler.new hostE2E optionsNoOutput)).2
      [("main", "/proj/index.js")]
      (callHook "run" (Compiler.new hostE2E optionsNoOutput))
      ((buildEntryModule hostE2E optionsNoOutput 5 [("main", "/proj/index.js")]
        (callHook "run" (Compiler.new hostE2E optionsNoOutput))).state?.getD
        (Compiler.new hostE2E optionsNoOutput))
      rfl rfl (Or.inl rfl)
  exact ⟨c', hrun, by rw [hm]; rfl⟩

/-- C9. On every run that completes, the trace added by `run` is: the `run`
hook; then only file reads (the builds); then only computed assets; then the
`emit` hook; then at most the creation of the output directory; then one write
per asset; then the `done` hook; then the callback. Each hook is called exactly
once, without argument, for the listeners tapped on it. -/
theorem hook_order (h : Host) (o : Options) (fuel : Nat) (c0 c : Compiler)
    (hrun : run h o fuel c0 = .ok () c) :
    ∃ (reads assets dirs : List Event) (outputPath : String),
      c.trace = c0.trace
          ++ Event.hookCall "run" (listenersOf c0.taps "run") :: reads
          ++ assets
          ++ Event.hookCall "emit" (listenersOf c0.taps "emit") :: dirs
          ++ (objectEntries c.assets).map
              (fun a => Event.writeFile (pathJoin outputPath a.1) a.2)
          ++ [Event.hookCall "done" (listenersOf c0.taps "done"), Event.callback]
      ∧ (∀ e ∈ reads, ∃ p, e = Event.readFile p)
      ∧ (∀ e ∈ assets, ∃ f, e = Event.assetComputed f)
      ∧ (dirs = [] ∨ dirs = [Event.mkdir outputPath])
      ∧ hookCalls (c.trace.drop c0.trace.length) = ["run", "emit", "done"] := by
  simp only [run] at hrun
  split at hrun
  · rename_i entry c2 hg
    have hc2 := getEntry_ok o _ c2 entry hg
    subst hc2
    split at hrun
    · rename_i c3 hb
      obtain ⟨ht3, _, reads, htr3, hreads⟩ := buildEntryModule_trace h o fuel entry _ c3 _ hb
      obtain ⟨c4, hres, ht4, _, _, _, assets, htr4, hassets⟩ :=
        computeAssets_frame h o c3.chunks c3
      simp only [exportFile] at hrun
      rcases hres with hok | hthrow
      · rw [hok] at hrun
        simp only at hrun
        split at hrun
        · cases hrun
        · rename_i output hout
          split at hrun
          · cases hrun
          · rename_i outputPath hpath
            split at hrun
            · cases hrun
            · rename_i dirsOnDisk c5 hmade
              split at hrun
              · rename_i c6 hw
                obtain ⟨ht6, ha6, htr6⟩ := writeAssets_ok h outputPath dirsOnDisk _ _ c6 _ hw
                simp only [Outcome.ok.injEq, true_and] at hrun
                have hc5 : c5.taps = c4.taps ∧ c5.assets = c4.assets
                    ∧ ∃ dirs, c5.trace = c4.trace
                        ++ Event.hookCall "emit" (listenersOf c4.taps "emit") :: dirs
                      ∧ (dirs = [] ∨ dirs = [Event.mkdir outputPath]) := by
                  split at hmade
                  · simp only [Option.some.injEq, Prod.mk.injEq] at hmade
                    rw [← hmade.2]
                    exact ⟨rfl, rfl, [], by simp [callHook], Or.inl rfl⟩
                  · split at hmade
                    · simp only [Option.some.injEq, Prod.mk.injEq] at hmade
                      rw [← hmade.2]
                      exact ⟨rfl, rfl, [Event.mkdir outputPath], by simp [callHook], Or.inr rfl⟩
                    · cases hmade
                obtain ⟨ht5, ha5, dirs, htr5, hdirs⟩ := hc5
                have htaps : c4.taps = c0.taps := by
                  rw [ht4, ht3]; rfl
                have hassetsEq : c.assets = c5.assets := by
                  rw [← hrun]
                  simpa [callHook] using ha6
                have htrace : c.trace = c0.trace
                    ++ Event.hookCall "run" (listenersOf c0.taps "run") :: reads
                    ++ assets
                    ++ Event.hookCall "emit" (listenersOf c0.taps "emit") :: dirs
                    ++ (objectEntries c.assets).map
                        (fun a => Event.writeFile (pathJoin outputPath a.1) a.2)
                    ++ [Event.hookCall "done" (listenersOf c0.taps "done"), Event.callback] := by
                  rw [hassetsEq, ← hrun]
                  simp only [callHook] at htr6 ht6 htr3 ⊢
                  simp only [htr6, htr5, htr4, htr3, ht6, ht5, htaps, List.append_assoc,
                    List.cons_append, List.nil_append, List.singleton_append]
                refine ⟨reads, assets, dirs, outputPath, htrace, hreads, hassets, hdirs, ?_⟩
                rw [htrace]
                simp only [List.append_assoc, List.drop_left, hookCalls_append, hookCalls,
                  List.cons_append]
                rw [hookCalls_eq_nil reads (by
                    intro e he hook ls heq
                    obtain ⟨p, hp⟩ := hreads e he
                    rw [hp] at heq; cases heq),
                  hookCalls_eq_nil assets (by
                    intro e he hook ls heq
                    obtain ⟨f, hf⟩ := hassets e he
                    rw [hf] at heq; cases heq),
                  hookCalls_eq_nil dirs (by
                    intro e he hook ls heq
                    rcases hdirs with hd | hd <;> rw [hd] at he
                    · cases he
                    · rw [List.mem_singleton.mp he] at heq; cases heq),
                  hookCalls_eq_nil
                    ((objectEntries c.assets).map
                      (fun a => Event.writeFile (pathJoin outputPath a.1) a.2)) (by
                    intro e he hook ls heq
                    obtain ⟨a, _, ha⟩ := List.mem_map.mp he
                    rw [← ha] at heq; cases heq)]
                rfl
              · cases hrun
              · cases hrun
      · rw [hthrow] at hrun
        cases hrun
    · cases hrun
    · cases hrun
  · cases hrun
  · cases hrun

/-- C9 (witness). The end-to-end run with `PluginB` tapped on `run`. -/
theorem hook_order_witness :
    run hostE2E optionsE2E 5 compilerE2E = .ok () ranE2E
    ∧ ranE2E.trace =
        [Event.hookCall "run" ["Plugin B"], Event.readFile "/proj/index.js",
         Event.readFile "./common.js", Event.assetComputed "main.js",
         Event.hookCall "emit" [], Event.mkdir "/proj/dist",
         Event.writeFile "/proj/dist/main.js" (render astIndexRewritten),
         Event.hookCall "done" [], Event.callback]
    ∧ ∃ (reads assets dirs : List Event) (outputPath : String),
      ranE2E.trace = compilerE2E.trace
          ++ Event.hookCall "run" (listenersOf compilerE2E.taps "run") :: reads
          ++ assets
          ++ Event.hookCall "emit" (listenersOf compilerE2E.taps "emit") :: dirs
          ++ (objectEntries ranE2E.assets).map
              (fun a => Event.writeFile (pathJoin outputPath a.1) a.2)
          ++ [Event.hookCall "done" (listenersOf compilerE2E.taps "done"), Event.callback]
      ∧ (∀ e ∈ reads, ∃ p, e = Event.readFile p)
      ∧ (∀ e ∈ assets, ∃ f, e = Event.assetComputed f)
      ∧ (dirs = [] ∨ dirs = [Event.mkdir outputPath])
      ∧ hookCalls (ranE2E.trace.drop compilerE2E.trace.length) = ["run", "emit", "done"] :=
  ⟨rfl, rfl, hook_order hostE2E optionsE2E 5 compilerE2E ranE2E rfl⟩

end WebpackTheory
